import Mathlib

/-!
Verification of the aichat agent/tool-orchestration core.

Shallow embedding of:
* `src/aichat/agents/mcp_tools/mcp_handler.py` (new-style MCP registry and
  the three tool-format adapters; identical adapter code also appears in
  `mcp_buffer.py`),
* `src/aichat/agents/mcp_handler.py` (legacy MCP registry: `connect`,
  `list_tools`, `call_tool`),
* `src/aichat/agents/claude_agent.py` (`request` round loop and the
  `_continue_stream` partial-JSON accumulator),
* `src/aichat/agents/gemini_agent.py` (`request` round loop),
* `src/aichat/agents/openai_agent.py` (`_continue_stream` per-index
  tool-call accumulator),
* `src/aichat/agents/agent.py` (`AgentController.recieve_message`),
* `src/aichat/controllers/chat_display_controller.py`
  (`ChatDisplayController.get_agent_response`),
* `src/aichat/controllers/message_input_controller.py`
  (`MessageInputController.send_message`) together with the downstream
  guard in `views/chat_display_area.py`.

Python dicts are modelled as insertion-ordered association lists of
string-keyed JSON values; external effects (provider transports, MCP
sessions, `json.loads`) are modelled as explicit function parameters, with
a Python exception modelled as `Except.error`.
-/

/-- JSON-compatible values: the data manipulated by tool schemas, tool-call
arguments and tool results.  Objects are insertion-ordered association
lists, mirroring Python dicts (which are insertion ordered and duplicate
free). -/
inductive Json where
  | null : Json
  | bool : Bool → Json
  | num : Int → Json
  | str : String → Json
  | arr : List Json → Json
  | obj : List (String × Json) → Json

namespace Json

/-- Python truthiness of a JSON value (`if s.get("items"): ...`):
`None`, `False`, `0`, `""`, `[]` and `{}` are falsy. -/
def truthy : Json → Bool
  | .null => false
  | .bool b => b
  | .num n => n != 0
  | .str s => s != ""
  | .arr l => !l.isEmpty
  | .obj l => !l.isEmpty

/-- `d.get(k)` on a Python dict: first (and in a real dict only) binding. -/
def get : Json → String → Option Json
  | .obj fs, k => fs.lookup k
  | _, _ => none

end Json

/-- `d[k] = v` on a Python dict: replace the value at the first occurrence
of `k`, keeping its position; append the binding if `k` is absent. -/
def setField : List (String × Json) → String → Json → List (String × Json)
  | [], k, v => [(k, v)]
  | (k', v') :: rest, k, v =>
      if k' = k then (k, v) :: rest else (k', v') :: setField rest k v

/-- `d.pop(k)` on a Python dict: remove the binding for `k` (a real dict
holds at most one binding per key). -/
def eraseField (fs : List (String × Json)) (k : String) : List (String × Json) :=
  fs.filter (fun p => p.1 ≠ k)

/-- `d.get(k) is not None`: the key is present with a non-null value. -/
def isNotNone : Option Json → Bool
  | none => false
  | some .null => false
  | some _ => true

theorem mem_of_lookup {fs : List (String × Json)} {k : String} {v : Json}
    (h : fs.lookup k = some v) : (k, v) ∈ fs := by
  induction fs with
  | nil => simp [List.lookup] at h
  | cons hd tl ih =>
      cases hbeq : (k == hd.1) <;> simp [List.lookup, hbeq] at h
      · exact List.mem_cons_of_mem _ (ih h)
      · cases hd with
        | mk k' v' =>
            have hk : k = k' := by simpa using hbeq
            subst hk
            subst h
            exact List.mem_cons_self ..

theorem sizeOf_lookup_lt {fs : List (String × Json)} {k : String} {v : Json}
    (h : fs.lookup k = some v) : sizeOf v < sizeOf (Json.obj fs) := by
  induction fs with
  | nil => simp [List.lookup] at h
  | cons hd tl ih =>
      cases hbeq : (k == hd.1) <;> simp [List.lookup, hbeq] at h
      · have := ih h
        simp at this ⊢
        omega
      · cases hd with
        | mk k' v' =>
            subst h
            simp
            omega

theorem sizeOf_mem_val_lt {pfs : List (String × Json)} {p : String × Json}
    (h : p ∈ pfs) : sizeOf p.2 < sizeOf (Json.obj pfs) := by
  have h1 : sizeOf p < sizeOf pfs := List.sizeOf_lt_of_mem h
  cases p with
  | mk k v => simp at h1 ⊢; omega

/-! ### Tool descriptors

`mcp.Tool`: `{name, description, inputSchema}` as used by both registries
and all three format adapters. -/

structure MTool where
  name : String
  description : String
  inputSchema : Json

/-! ### `GeminiToolFormatter.format` — `mcp_tools/mcp_handler.py` lines 100-141

`format_schema` recursively rewrites a schema dict in place: it recurses
into a truthy `items` value and into each value of a truthy `properties`
dict, then pops `additionalProperties`, `$schema` and `default` whenever
`s.get(key) is not None`.  `format_schema` is only ever applied to dict
values; on a non-dict value the Python would raise `AttributeError`
(`.get` missing), so the model leaves non-dict values unchanged. -/

/-- The three `pop` statements of `format_schema`: remove
`additionalProperties`, `$schema` and `default` whenever
`s.get(key) is not None`. -/
def strip_unsupported (fs2 : List (String × Json)) : List (String × Json) :=
  let fs3 := if isNotNone (fs2.lookup "additionalProperties") then
               eraseField fs2 "additionalProperties" else fs2
  let fs4 := if isNotNone (fs3.lookup "$schema") then
               eraseField fs3 "$schema" else fs3
  if isNotNone (fs4.lookup "default") then eraseField fs4 "default" else fs4

mutual

def format_schema (s : Json) : Json :=
  match s with
  | .obj fs =>
    -- if s.get("items"): s["items"] = format_schema(s["items"])
    let fs1 :=
      match h1 : fs.lookup "items" with
      | some it => if it.truthy then setField fs "items" (format_schema it) else fs
      | none => fs
    -- if s.get("properties"): s["properties"] = {k: format_schema(v) ...}
    let fs2 :=
      match h2 : fs.lookup "properties" with
      | some (.obj pfs) =>
          if (Json.obj pfs).truthy then
            setField fs1 "properties" (.obj (format_schema_fields pfs))
          else fs1
      | some _ => fs1   -- truthy non-dict `properties`: Python raises on `.items()`
      | none => fs1
    -- pop the keys Gemini does not support, when present with non-null value
    .obj (strip_unsupported fs2)
  | s => s
termination_by sizeOf s
decreasing_by
  · have := sizeOf_lookup_lt h1
    simp at this ⊢
    omega
  · have := sizeOf_lookup_lt h2
    simp at this ⊢
    omega

def format_schema_fields (l : List (String × Json)) : List (String × Json) :=
  match l with
  | [] => []
  | (k, v) :: rest => (k, format_schema v) :: format_schema_fields rest
termination_by sizeOf l
decreasing_by
  all_goals (simp; try omega)

end

/-- Output entry of `GeminiToolFormatter.format`: one `function_declarations`
dict (`{"name", "description", "parameters"}`). -/
structure GeminiDecl where
  name : String
  description : String
  parameters : Json

/-- Gemini `params.get("type") == "object"` style comparison is not needed;
this helper is for the OpenAI/Claude formatters below. -/
def typeIsObject : Option Json → Bool
  | some (.str s) => s == "object"
  | _ => false

/-- `GeminiToolFormatter.format` on one tool.  `none` models the Python
raising: `tool.inputSchema["type"]` (KeyError when absent, TypeError when
the schema is not a dict) and `.items()` on a truthy non-dict `properties`
(AttributeError). -/
def gemini_format_tool (t : MTool) : Option GeminiDecl :=
  match t.inputSchema with
  | .obj fs =>
      match fs.lookup "type" with
      | none => none
      | some ty =>
          let req := (fs.lookup "required").getD (.arr [])
          match fs.lookup "properties" with
          | some (.obj pfs) =>
              some ⟨t.name, t.description,
                .obj [("type", ty), ("required", req),
                      ("properties", .obj (format_schema_fields pfs))]⟩
          | some _ => none
          | none =>
              some ⟨t.name, t.description,
                .obj [("type", ty), ("required", req), ("properties", .obj [])]⟩
  | _ => none

/-- `GeminiToolFormatter.format` over the tool list. -/
def gemini_format (tools : List MTool) : Option (List GeminiDecl) :=
  tools.mapM gemini_format_tool

/-- Post-state of `tool.inputSchema` after `GeminiToolFormatter.format`:
`parameters["properties"]` aliases `tool.inputSchema["properties"]` (it is
obtained by `.get`, not copied), and the loop
`parameters["properties"][k] = format_schema(v)` therefore rewrites the
values of the original `properties` dict in place (`format_schema` itself
also mutates each `v` in place and returns it). -/
def gemini_inputSchema_after (s : Json) : Json :=
  match s with
  | .obj fs =>
      match fs.lookup "type" with
      | none => .obj fs   -- the call raised on `["type"]` before any mutation
      | some _ =>
          match fs.lookup "properties" with
          | some (.obj pfs) =>
              .obj (setField fs "properties" (.obj (format_schema_fields pfs)))
          | _ => .obj fs
  | s => s

/-- Descriptor list as left behind by `GeminiToolFormatter.format`. -/
def gemini_tools_after (tools : List MTool) : List MTool :=
  tools.map (fun t => { t with inputSchema := gemini_inputSchema_after t.inputSchema })

/-! ### `OpenAIToolFormatter.format` / `ClaudeToolFormatter.format`
(`mcp_tools/mcp_handler.py` lines 144-201; the same code also appears in
`mcp_buffer.py` and, modulo a `/`→`__` name rewrite, in
`agents/mcp_handler.py` lines 133-203). -/

/-- `params = tool.inputSchema or {"type": "object", "properties": {}}`,
followed by: if `params` is a dict with `type == "object"` and no
`properties` key, `params["properties"] = {}` is added **in place**.  The
returned value is the `parameters`/`input_schema` entry of the formatted
tool. -/
def openai_fix_schema (s : Json) : Json :=
  if s.truthy then
    match s with
    | .obj fs =>
        if typeIsObject (fs.lookup "type") && (fs.lookup "properties").isNone then
          .obj (fs ++ [("properties", .obj [])])
        else .obj fs
    | s => s
  else .obj [("type", .str "object"), ("properties", .obj [])]

/-- Post-state of `tool.inputSchema` after the OpenAI formatter: when the
schema is truthy, `params` *is* `tool.inputSchema`, so the in-place
`params["properties"] = {}` is visible through the descriptor; when it is
falsy a fresh default dict is used and the input is untouched. -/
def openai_inputSchema_after (s : Json) : Json :=
  if s.truthy then openai_fix_schema s else s

/-- One entry of the OpenAI tool list:
`{"type": "function", "function": {"name", "description", "parameters"}}`. -/
structure OpenAIDecl where
  name : String
  description : String
  parameters : Json

def openai_format (tools : List MTool) : List OpenAIDecl :=
  tools.map (fun t => ⟨t.name, t.description, openai_fix_schema t.inputSchema⟩)

def openai_tools_after (tools : List MTool) : List MTool :=
  tools.map (fun t => { t with inputSchema := openai_inputSchema_after t.inputSchema })

/-- One entry of the Claude tool list:
`{"name", "description", "input_schema"}`. -/
structure ClaudeDecl where
  name : String
  description : String
  input_schema : Json

/-- `ClaudeToolFormatter.format` runs the same schema fix-up as the OpenAI
formatter (the Python bodies are line-for-line identical apart from the
wrapper dict), including the same in-place mutation. -/
def claude_format (tools : List MTool) : List ClaudeDecl :=
  tools.map (fun t => ⟨t.name, t.description, openai_fix_schema t.inputSchema⟩)

def claude_tools_after (tools : List MTool) : List MTool :=
  tools.map (fun t => { t with inputSchema := openai_inputSchema_after t.inputSchema })

/-! ### Remote tool results (mcp `CallToolResult` as consumed by both
registries). -/

/-- One element of `result.content`. -/
inductive RPart where
  | textPart (text : String)       -- object with a `.text` str attribute (mcp TextContent)
  | plainStr (s : String)          -- a bare Python `str`
  | otherPart (rendering : String) -- anything else; `rendering` is its `str()`

/-- The `result.content` payload: a list of parts, a bare string, or some
other object (again carried as its `str()` rendering). -/
inductive RContent where
  | parts (l : List RPart)
  | text (s : String)
  | otherContent (rendering : String)

/-- A remote `session.call_tool` result; `is_error` models
`getattr(result, "is_error", False)`. -/
structure RemoteResult where
  content : RContent
  is_error : Bool

/-! ### New-style registry `McpHandler.call_tool`
(`mcp_tools/mcp_handler.py` lines 72-79). -/

/-- `name.split("__", 1)` on the character list: split at the first
occurrence of a double underscore; `none` when there is none. -/
def splitDunderChars : List Char → Option (List Char × List Char)
  | [] => none
  | '_' :: '_' :: rest => some ([], rest)
  | c :: rest => (splitDunderChars rest).map (fun p => (c :: p.1, p.2))

def splitDunder (s : String) : Option (String × String) :=
  (splitDunderChars s.data).map (fun p => (String.mk p.1, String.mk p.2))

/-- `mcp_tools` `McpHandler.call_tool`.  `remote` models connecting to the
named server and invoking the tool (`connect_with_server_name` +
`session.call_tool`); its `Except.error` is a raised exception.  The method
has no `try`/`except`: a name without the `__` separator raises
`ValueError` from tuple unpacking, connection/execution failures propagate,
and an empty or text-less first content part raises in
`result.content[0].text`. -/
def mcp_tools_call_tool
    (remote : String → String → Json → Except String RemoteResult)
    (name : String) (args : Json) : Except String Json :=
  match splitDunder name with
  | none => .error "ValueError: not enough values to unpack (expected 2, got 1)"
  | some (server_name, tool_name) =>
      match remote server_name tool_name args with
      | .error e => .error e
      | .ok result =>
          match result.content with
          | .parts (.textPart t :: _) => .ok (.obj [("content", .str t)])
          | .parts (_ :: _) => .error "AttributeError: object has no attribute 'text'"
          | .parts [] => .error "IndexError: list index out of range"
          | _ => .error "TypeError: content is not subscriptable"

/-! ### Server configurations (`servers.json` entries). -/

inductive ServerKind where
  | command (hasArgs : Bool)  -- subprocess entry; `hasArgs`: an `args` key is present
  | url                       -- SSE endpoint entry
  | neither                   -- neither `command` nor `url`
deriving DecidableEq

structure ServerConfig where
  disabled : Bool
  kind : ServerKind
deriving DecidableEq

/-- `mcp_tools` `McpHandler._cache_tool_list` (lines 24-41): iterates the
config, skips disabled entries, connects to each remaining server and lists
its tools with the `server__tool` name scheme.  There is no `try`/`except`:
an invalid config entry raises `ValueError`, and any connection or listing
failure (modelled by `listFromServer` returning `Except.error`) aborts the
whole enumeration. -/
def cache_tool_list_go
    (listFromServer : String → Except String (List MTool)) :
    List (String × ServerConfig) → List MTool → Except String (List MTool)
  | [], acc => .ok acc
  | (server_name, cfg) :: rest, acc =>
      if cfg.disabled then cache_tool_list_go listFromServer rest acc
      else
        match cfg.kind with
        | .neither => .error "ValueError: Invalid MCP server config"
        | _ =>
            match listFromServer server_name with
            | .error e => .error e
            | .ok ts =>
                cache_tool_list_go listFromServer rest
                  (acc ++ ts.map (fun t => { t with name := server_name ++ "__" ++ t.name }))

def mcp_tools_cache_tool_list
    (config : List (String × ServerConfig))
    (listFromServer : String → Except String (List MTool)) :
    Except String (List MTool) :=
  cache_tool_list_go listFromServer config []

/-! ### Legacy registry (`agents/mcp_handler.py`). -/

/-- `McpHandler.connect` (lines 20-97): builds `self.sessions`.  Disabled
entries are skipped; a `command` entry without `args` is skipped; an entry
with neither `command` nor `url` is skipped; each connection attempt is
wrapped in `try`/`except`, so a failure (modelled by `connectOutcome`
returning `Except.error`) only skips that server. -/
def legacy_connect
    (configs : List (String × ServerConfig))
    (connectOutcome : String → Except String Unit) : List String :=
  match configs with
  | [] => []
  | (server_name, cfg) :: rest =>
      let tail := legacy_connect rest connectOutcome
      if cfg.disabled then tail
      else
        match cfg.kind with
        | .command hasArgs =>
            if !hasArgs then tail
            else
              match connectOutcome server_name with
              | .ok _ => server_name :: tail
              | .error _ => tail
        | .url =>
            match connectOutcome server_name with
            | .ok _ => server_name :: tail
            | .error _ => tail
        | .neither => tail

/-- `McpHandler.list_tools` (lines 99-131): for every connected session,
list its tools and rename each to `server/tool`; a per-server listing
failure is caught, logged and skipped (`continue to next server`). -/
def legacy_list_tools (sessions : List String)
    (listOutcome : String → Except String (List MTool)) : List MTool :=
  match sessions with
  | [] => []
  | s :: rest =>
      (match listOutcome s with
       | .ok ts => ts.map (fun t => { t with name := s ++ "/" ++ t.name })
       | .error _ => []) ++ legacy_list_tools rest listOutcome

/-- `name.split("/", 1)`: split at the first `/`; `none` when absent. -/
def splitSlashChars : List Char → Option (List Char × List Char)
  | [] => none
  | '/' :: rest => some ([], rest)
  | c :: rest => (splitSlashChars rest).map (fun p => (c :: p.1, p.2))

def splitSlash (s : String) : Option (String × String) :=
  (splitSlashChars s.data).map (fun p => (String.mk p.1, String.mk p.2))

/-- The arguments value handed to the legacy `call_tool` (`args: dict | str`;
anything else hits the final `TypeError` branch). -/
inductive ToolArgs where
  | dict (j : Json)
  | strArgs (s : String)
  | otherArgs

/-- The legacy `call_tool` return value (a tool-result dict). -/
structure ToolCallResult where
  tool_use_id : Option String
  content : String
  is_error : Bool

/-- `all(isinstance(item, str) for item in result.content)`. -/
def allPlainStr (l : List RPart) : Bool :=
  l.all (fun p => match p with | .plainStr _ => true | _ => false)

/-- `str(part)` for the fallback branches.  The `textPart` case is
unreachable there (a part with a `.text` str attribute is consumed by the
first branch); its rendering is carried as the text itself. -/
def strOfPart : RPart → String
  | .textPart t => t
  | .plainStr s => s
  | .otherPart r => r

/-- `sep.join(l)`. -/
def joinSep (sep : String) : List String → String
  | [] => ""
  | [s] => s
  | s :: rest => s ++ sep ++ joinSep sep rest

/-- Python `str.strip()`: drop whitespace from both ends (written on the
character list so that it evaluates definitionally). -/
def pyStrip (s : String) : String :=
  String.mk (((s.data.dropWhile Char.isWhitespace).reverse.dropWhile Char.isWhitespace).reverse)

/-- Content normalization of legacy `call_tool` (lines 298-336): for a
nonempty list, use the first part's `.text` when it is a str; otherwise,
when every element is a bare str, join **all** of them with newlines;
otherwise `str()` of the first part.  A bare-string content is used as is,
any other truthy content is `str()`-rendered; falsy content (empty list or
empty string) leaves `content_text = ""`. -/
def normalize_content : RContent → String
  | .parts [] => ""
  | .parts (first :: rest) =>
      match first with
      | .textPart t => t
      | _ =>
          if allPlainStr (first :: rest) then
            joinSep "\n" ((first :: rest).map strOfPart)
          else strOfPart first
  | .text s => s
  | .otherContent r => r

/-- Legacy `McpHandler.call_tool` (lines 205-378).  Total: every failure
path is converted into an `is_error := true` result.  `loads` models
`json.loads`; `remote` models `session.call_tool` with `Except.error` for a
raised exception. -/
def legacy_call_tool
    (sessions : List String)
    (loads : String → Option Json)
    (remote : String → String → Json → Except String RemoteResult)
    (name : String) (args : ToolArgs) (tool_call_id : Option String) : ToolCallResult :=
  match splitSlash name with
  | none =>
      { tool_use_id := tool_call_id,
        content := "Error: Invalid tool name format '" ++ name ++
          "'. Expected 'server_name/tool_name'. Details: Tool name does not contain '/' separator.",
        is_error := true }
  | some (server_name, actual_tool_name) =>
      if !(sessions.contains server_name) then
        { tool_use_id := tool_call_id,
          content := "Error: No active session for server '" ++ server_name ++
            "'. Cannot call tool '" ++ actual_tool_name ++ "'.",
          is_error := true }
      else
        match args with
        | .strArgs s =>
            (match loads s with
             | some tool_args =>
                 (match remote server_name actual_tool_name tool_args with
                  | .error e =>
                      { tool_use_id := tool_call_id,
                        content := "Tool execution error (" ++ server_name ++ "/" ++
                          actual_tool_name ++ "): " ++ e,
                        is_error := true }
                  | .ok result =>
                      { tool_use_id := tool_call_id,
                        content := normalize_content result.content,
                        is_error := result.is_error })
             | none =>
                 -- json.JSONDecodeError → logged, re-raised as TypeError, caught below
                 { tool_use_id := tool_call_id,
                   content := "Error processing arguments for tool " ++ name ++
                     ": Tool arguments must be a JSON string or a dictionary.",
                   is_error := true })
        | .dict tool_args =>
            (match remote server_name actual_tool_name tool_args with
             | .error e =>
                 { tool_use_id := tool_call_id,
                   content := "Tool execution error (" ++ server_name ++ "/" ++
                     actual_tool_name ++ "): " ++ e,
                   is_error := true }
             | .ok result =>
                 { tool_use_id := tool_call_id,
                   content := normalize_content result.content,
                   is_error := result.is_error })
        | .otherArgs =>
            { tool_use_id := tool_call_id,
              content := "Error processing arguments for tool " ++ name ++
                ": Tool arguments must be a JSON string or a dictionary.",
              is_error := true }

/-! ### Shared configuration (`config.py`). -/

def MAX_REQUEST_COUNT : Nat := 5

def USER_NAME : String := "User"

def APP_ROLE_NAME : String := "App"

/-! ### `ClaudeAgent.request` (`claude_agent.py` lines 334-480). -/

/-- A content block of an Anthropic response (and, dumped, of the
accumulated native history).  `tool_result` only appears in the `user`
turns appended by `_handle_tool_use`. -/
inductive ContentBlock where
  | text (text : String)
  | tool_use (id : String) (name : String) (input : Json)
  | tool_result (tool_use_id : String) (content : String)

structure ClaudeResponse where
  stop_reason : Option String
  content : List ContentBlock

/-- Exceptions of the provider transport, as distinguished by the `except`
clauses of `ClaudeAgent.request`. -/
inductive TransportError where
  | connection (msg : String)          -- anthropic.APIConnectionError
  | rateLimit (msg : String)           -- anthropic.RateLimitError
  | status (code : Nat) (msg : String) -- anthropic.APIStatusError
  | otherError (msg : String)          -- any other exception

/-- The diagnostic string returned by the corresponding `except` clause. -/
def claude_error_text : TransportError → String
  | .connection e => "API Connection Error: " ++ e
  | .rateLimit e => "Rate Limit Exceeded: " ++ e
  | .status code e => "API Error " ++ toString code ++ ": " ++ e
  | .otherError e => "An error occurred: " ++ e

/-- One entry of the provider-native message list `claude_messages`. -/
structure ClaudeMsg where
  role : String
  content : List ContentBlock

/-- The `for content_block in response.content` scan of one response:
collect the text blocks into `final_text_parts` and
`assistant_responses_content` until the first `tool_use` block, which is
also recorded and breaks the scan.  Blocks of any other type match neither
branch and are skipped. -/
def process_content_blocks :
    List ContentBlock → List String × List ContentBlock × Option (String × String × Json)
  | [] => ([], [], none)
  | .text s :: rest =>
      let (ts, arc, tu) := process_content_blocks rest
      (s :: ts, .text s :: arc, tu)
  | .tool_use id name input :: _ => ([], [.tool_use id name input], some (id, name, input))
  | .tool_result _ _ :: rest => process_content_blocks rest

/-- Mutable state of the `request` round loop. -/
structure ClaudeLoopState where
  claude_messages : List ClaudeMsg
  final_text_parts : List String
  call_count : Nat
  next_call : Nat   -- index of the next provider invocation (the initial call is 0)
  response : ClaudeResponse

/-- The `while call_count < config.MAX_REQUEST_COUNT` loop.  `provider n`
models the n-th `client.messages.create` call (the initial one is n = 0;
`_handle_tool_use` makes the next ones), with `Except.error` for a raised
transport exception.  `tool_content` is the tool-result payload folded into
the history for the n-th continuation.  Every path of the Python loop body
either breaks or increments `call_count`, so `MAX_REQUEST_COUNT` fuel is
exact.

Paths: a `tool_use` block appends the assistant turn and the tool-result
user turn, re-calls the provider, increments the counter and continues
(breaking if the counter reached the maximum); the `for`/`else` paths (no
tool-use block) append the assistant text turn when nonempty and break for
every stop reason (terminal ones, the anomalous `tool_use`-without-block
case, and the final non-terminal warning case alike). -/
def claude_loop
    (provider : Nat → Except TransportError ClaudeResponse)
    (tool_content : Nat → String) :
    Nat → ClaudeLoopState → Except TransportError ClaudeLoopState
  | 0, st => .ok st
  | fuel + 1, st =>
      if st.call_count < MAX_REQUEST_COUNT then
        match process_content_blocks st.response.content with
        | (ts, arc, some (id, _name, _input)) =>
            let msgs := st.claude_messages ++
              [⟨"assistant", arc⟩, ⟨"user", [.tool_result id (tool_content st.next_call)]⟩]
            (match provider st.next_call with
             | .error e => .error e
             | .ok r =>
                 let st' : ClaudeLoopState :=
                   { claude_messages := msgs,
                     final_text_parts := st.final_text_parts ++ ts,
                     call_count := st.call_count + 1,
                     next_call := st.next_call + 1,
                     response := r }
                 if MAX_REQUEST_COUNT ≤ st'.call_count then .ok st'
                 else claude_loop provider tool_content fuel st')
        | (ts, arc, none) =>
            let msgs := if arc.isEmpty then st.claude_messages
                        else st.claude_messages ++ [⟨"assistant", arc⟩]
            .ok { st with claude_messages := msgs,
                          final_text_parts := st.final_text_parts ++ ts }
      else .ok st

/-- `ClaudeAgent.request` up to the end of the `try` block: the initial
provider call followed by the round loop. -/
def claude_request_run
    (provider : Nat → Except TransportError ClaudeResponse)
    (tool_content : Nat → String)
    (initial : List ClaudeMsg) : Except TransportError ClaudeLoopState :=
  match provider 0 with
  | .error e => .error e
  | .ok r0 =>
      claude_loop provider tool_content MAX_REQUEST_COUNT
        { claude_messages := initial, final_text_parts := [], call_count := 0,
          next_call := 1, response := r0 }

/-- Python string formatting of the final stop reason (`None` for a null
one). -/
def stop_reason_text : Option String → String
  | some s => s
  | none => "None"

/-- `ClaudeAgent.request`: on a raised transport error the matching
`except` clause returns its diagnostic; otherwise the text parts are
joined/stripped, with the `[Tool use completed]` and `No response
generated` sentinels for the empty cases
(`assistant_had_content` is true when some history entry has role
`assistant` and truthy content). -/
def claude_request
    (provider : Nat → Except TransportError ClaudeResponse)
    (tool_content : Nat → String)
    (initial : List ClaudeMsg) : String :=
  match claude_request_run provider tool_content initial with
  | .error e => claude_error_text e
  | .ok st =>
      let content_text := pyStrip (joinSep "\n" st.final_text_parts)
      let assistant_had_content := st.claude_messages.any
        (fun m => m.role == "assistant" && !m.content.isEmpty)
      if content_text == "" && !assistant_had_content then
        "No response generated (Stop: " ++ stop_reason_text st.response.stop_reason ++ ")."
      else if content_text == "" then "[Tool use completed]"
      else content_text

/-! ### `GeminiAgent.request` (`gemini_agent.py` lines 56-110).

The provider is modelled as an oracle indexed by the call number (every
dependence of a real provider on the evolving `request_body` is captured by
quantifying over this oracle); `tool_call` is
`self.mcp_handler.call_tool`, indexed by execution number, with
`Except.error` for a raised exception.  Neither is guarded by any
`try`/`except` in `request`. -/

inductive GeminiPart where
  | function_call (name : String) (args : Json)
  | textPart (text : String)

/-- One `generate_content` response: the parts of all candidates, flattened
in iteration order. -/
abbrev GeminiResponse := List GeminiPart

inductive GeminiError where
  | transport (e : TransportError)  -- raised by generate_content, not caught
  | tool (e : String)               -- raised by mcp_handler.call_tool, not caught

structure GeminiLoopState where
  cnt : Nat
  provider_calls : Nat
  tool_calls : Nat
  final_content : List String

/-- The nested `for candidate ... for part ...` scan: execute each
function-call part (a raised exception propagates), collect each text part,
and report whether any function call occurred (`is_final_response =
False`). -/
def gemini_process_parts
    (tool_call : Nat → Except String Json) :
    List GeminiPart → Nat → Except String (List String × Nat × Bool)
  | [], i => .ok ([], i, false)
  | .function_call _name _args :: rest, i =>
      (match tool_call i with
       | .error e => .error e
       | .ok _result =>
           match gemini_process_parts tool_call rest (i + 1) with
           | .error e => .error e
           | .ok (ts, i', _) => .ok (ts, i', true))
  | .textPart s :: rest, i =>
      match gemini_process_parts tool_call rest i with
      | .error e => .error e
      | .ok (ts, i', fc) => .ok (s :: ts, i', fc)

/-- The `while cnt < config.MAX_REQUEST_COUNT` loop: call the provider,
process the parts, stop when no function call occurred, otherwise increment
`cnt` and continue.  `cnt` grows by one per continued iteration, so
`MAX_REQUEST_COUNT` fuel is exact. -/
def gemini_loop
    (provider : Nat → Except TransportError GeminiResponse)
    (tool_call : Nat → Except String Json) :
    Nat → GeminiLoopState → Except GeminiError GeminiLoopState
  | 0, st => .ok st
  | fuel + 1, st =>
      if st.cnt < MAX_REQUEST_COUNT then
        match provider st.provider_calls with
        | .error e => .error (.transport e)
        | .ok parts =>
            match gemini_process_parts tool_call parts st.tool_calls with
            | .error e => .error (.tool e)
            | .ok (ts, i', any_call) =>
                let st' : GeminiLoopState :=
                  { cnt := st.cnt, provider_calls := st.provider_calls + 1,
                    tool_calls := i', final_content := st.final_content ++ ts }
                if !any_call then .ok st'
                else gemini_loop provider tool_call fuel { st' with cnt := st.cnt + 1 }
      else .ok st

def gemini_request_run
    (provider : Nat → Except TransportError GeminiResponse)
    (tool_call : Nat → Except String Json) : Except GeminiError GeminiLoopState :=
  gemini_loop provider tool_call MAX_REQUEST_COUNT
    { cnt := 0, provider_calls := 0, tool_calls := 0, final_content := [] }

/-- `GeminiAgent.request`: `" ".join(final_content)`; an exception raised by
the transport or by `call_tool` propagates to the caller. -/
def gemini_request
    (provider : Nat → Except TransportError GeminiResponse)
    (tool_call : Nat → Except String Json) : Except GeminiError String :=
  (gemini_request_run provider tool_call).map (fun st => joinSep " " st.final_content)

/-! ### `ClaudeAgent._continue_stream` (`claude_agent.py` lines 115-273). -/

/-- The stream events consumed by `_continue_stream`, one per iteration of
`async for event in stream`. -/
inductive StreamEvent where
  | content_block_start_tool (id : String) (name : String)
  | content_block_start_text
  | text_delta (text : String)
  | input_json_delta (partial_json : String)
  | content_block_stop
  | message_delta (stop_reason : Option String)
  | message_stop
deriving DecidableEq

/-- State of one `_continue_stream` invocation: the per-block tool-use
accumulator, everything yielded so far, and every `session.call_tool`
invocation performed (name and parsed input).  (The
`assistant_message_content` record-keeping does not influence which tool
calls run and is omitted.) -/
structure StreamRunState where
  current_tool_use_id : Option String
  current_tool_name : Option String
  current_tool_input_chunks : List String
  yielded : List String
  executed : List (String × Json)

/-- `"".join(current_tool_input_chunks)`. -/
def concatChunks : List String → String
  | [] => ""
  | s :: rest => s ++ concatChunks rest

/-- Event processing of one `_continue_stream` invocation.  `loads` models
`json.loads` (`none` = `JSONDecodeError`).  On `content_block_start` of a
`tool_use` block the accumulator is (re)initialized with an empty fragment
buffer; `input_json_delta` fragments are appended while a tool block is
open; nothing is parsed before `content_block_stop`.  At
`content_block_stop` with an open tool block the joined fragments are
parsed: on success the tool is executed exactly once and the generator
recurses into a *fresh* stream and returns (the remaining events of this
stream are never read); on a parse failure an error message is yielded and
the branch stops. -/
def claude_stream_events (loads : String → Option Json) :
    List StreamEvent → StreamRunState → StreamRunState
  | [], st => st
  | e :: rest, st =>
      match e with
      | .content_block_start_tool id name =>
          claude_stream_events loads rest
            { st with current_tool_use_id := some id, current_tool_name := some name,
                      current_tool_input_chunks := [] }
      | .content_block_start_text => claude_stream_events loads rest st
      | .text_delta s =>
          claude_stream_events loads rest { st with yielded := st.yielded ++ [s] }
      | .input_json_delta s =>
          claude_stream_events loads rest
            (if st.current_tool_name.isSome then
               { st with current_tool_input_chunks := st.current_tool_input_chunks ++ [s] }
             else st)
      | .content_block_stop =>
          (match st.current_tool_name, st.current_tool_use_id with
           | some name, some _id =>
               (match loads (concatChunks st.current_tool_input_chunks) with
                | some input => { st with executed := st.executed ++ [(name, input)] }
                | none =>
                    { st with yielded := st.yielded ++ ["\nError using tool " ++ name] })
           | _, _ => claude_stream_events loads rest st)
      | .message_delta _ => claude_stream_events loads rest st
      | .message_stop => claude_stream_events loads rest st

def stream_init : StreamRunState :=
  { current_tool_use_id := none, current_tool_name := none,
    current_tool_input_chunks := [], yielded := [], executed := [] }

/-! ### `OpenAIAgent._continue_stream` (`openai_agent.py` lines 274-471). -/

/-- The chunk payloads consumed by one `async for chunk in stream`
iteration, flattened into single events in delivery order (a chunk carrying
a content delta, several tool-call deltas and a finish reason is processed
exactly in that order by the Python body).  `hasFunction` is the presence
of `tool_call_chunk.function`. -/
inductive OpenAIChunkEvent where
  | content_delta (text : String)
  | tool_call_delta (index : Nat) (id : Option String) (hasFunction : Bool)
      (name : Option String) (arguments : Option String)
  | finish (reason : String)
deriving DecidableEq

/-- The per-index accumulator entry: `current_tool_calls[index]` stores the
*first* chunk seen for the index (its id/function/name), and
`current_tool_args_str[index]` starts as `""` — the first chunk's
`arguments` payload is **not** appended. -/
structure OpenAIToolBuf where
  id : Option String
  hasFunction : Bool
  name : Option String
  args : String

/-- `elif` branch for a known index:
`if tool_call_chunk.function and tool_call_chunk.function.arguments:`
append the fragment (`None` and `""` are both falsy). -/
def appendArgs (b : OpenAIToolBuf) (hasFn : Bool) (a : Option String) : OpenAIToolBuf :=
  if hasFn then
    match a with
    | some s => if s != "" then { b with args := b.args ++ s } else b
    | none => b
  else b

/-- Update of the two per-index dicts for one `tool_call_chunk` (insertion
ordered, as Python dicts are). -/
def updateBuffers (bufs : List (Nat × OpenAIToolBuf)) (index : Nat) (id : Option String)
    (hasFn : Bool) (name : Option String) (a : Option String) : List (Nat × OpenAIToolBuf) :=
  match bufs with
  | [] => [(index, { id := id, hasFunction := hasFn, name := name, args := "" })]
  | (i, b) :: rest =>
      if i = index then (i, appendArgs b hasFn a) :: rest
      else (i, b) :: updateBuffers rest index id hasFn name a

structure OpenAIStreamState where
  buffers : List (Nat × OpenAIToolBuf)
  yielded : List String
  executed : List (String × Json)

/-- The `finish_reason == "tool_calls"` execution loop over
`current_tool_calls.items()`: entries without a function or name are
skipped (`continue`); for the others `json.loads` of the accumulated
argument string is attempted — on success the tool runs once
(`session.call_tool`), on `JSONDecodeError` an error tool-result is
recorded instead and nothing runs. -/
def execBuffers (loads : String → Option Json) :
    List (Nat × OpenAIToolBuf) → List (String × Json)
  | [] => []
  | (_, b) :: rest =>
      match b.hasFunction, b.name with
      | true, some n =>
          (match loads b.args with
           | some v => (n, v) :: execBuffers loads rest
           | none => execBuffers loads rest)
      | _, _ => execBuffers loads rest

/-- Event processing of one `_continue_stream` invocation.  Tool calls are
executed only in the `finish_reason == "tool_calls"` branch; before then
argument fragments only accumulate in the per-index buffers.  When no
buffered entry has a function payload the handler yields
`[Error: Tool call processing failed]` and returns.  After the executions
the generator recurses into a fresh stream and returns, so the remaining
events of this stream are never read; a `stop`/`length`/other finish
reason returns without executing anything. -/
def openai_stream_events (loads : String → Option Json) :
    List OpenAIChunkEvent → OpenAIStreamState → OpenAIStreamState
  | [], st => st
  | e :: rest, st =>
      match e with
      | .content_delta s =>
          openai_stream_events loads rest { st with yielded := st.yielded ++ [s] }
      | .tool_call_delta index id hasFn name a =>
          openai_stream_events loads rest
            { st with buffers := updateBuffers st.buffers index id hasFn name a }
      | .finish reason =>
          if reason = "tool_calls" then
            if (st.buffers.filter (fun p => p.2.hasFunction)).isEmpty then
              { st with yielded := st.yielded ++ ["\n[Error: Tool call processing failed]"] }
            else { st with executed := st.executed ++ execBuffers loads st.buffers }
          else st

def openai_stream_init : OpenAIStreamState :=
  { buffers := [], yielded := [], executed := [] }

/-! ### Controllers. -/

/-- What a controller does with the newest message list. -/
inductive AgentInvocation where
  | noRequest   -- the handler returns without touching the agent
  | streaming   -- agent.request_streaming is invoked
  | batch       -- agent.request is invoked
deriving DecidableEq

/-- `AgentController.recieve_message` (`agents/agent.py` lines 36-47),
applied to the role names of the received message list: return unless the
last message is user-authored; otherwise run the streaming or batch request
according to `agent.streamable`.  (On an empty list `messages[-1]` raises
`IndexError`, which equally never reaches the agent.) -/
def recieve_message (role_names : List String) (streamable : Bool) : AgentInvocation :=
  match role_names.getLast? with
  | none => .noRequest
  | some last =>
      if last != USER_NAME then .noRequest
      else if streamable then .streaming else .batch

/-- `ChatDisplayController.get_agent_response` (lines 36-58): return only
when the last message is app-authored (`config.APP_ROLE_NAME`); otherwise
run the streaming or batch request according to `agent.streamable`. -/
def get_agent_response_invocation (role_names : List String) (streamable : Bool) :
    AgentInvocation :=
  match role_names.getLast? with
  | none => .noRequest
  | some last =>
      if last == APP_ROLE_NAME then .noRequest
      else if streamable then .streaming else .batch

/-- A message as published on `Topics.SUBMIT_MESSAGE`. -/
structure PublishedMessage where
  role_name : String
  display_content : String
  system_content : String
deriving DecidableEq

/-- `MessageInputController.send_message` (lines 34-43): the submitted text
is wrapped unconditionally — with no emptiness or whitespace check — into a
user-authored `Message` (via `Message.construct_auto`, which uses the text
as both display and system content), persisted, and published as a
one-element list. -/
def send_message (text : String) : List PublishedMessage :=
  [{ role_name := USER_NAME, display_content := text, system_content := text }]

/-- The downstream guard (`views/chat_display_area.py`
`append_new_message_to_list`, re-checked by `get_agent_response`): after the
published messages are appended, an agent turn is requested unless the
newest one is app-authored. -/
def triggers_agent_turn (published : List PublishedMessage) : Bool :=
  match published.getLast? with
  | some m => m.role_name != APP_ROLE_NAME
  | none => false

/-! ## Supporting lemmas -/

theorem append_str_ne_empty (s t : String) (h : s ≠ "") : s ++ t ≠ "" := by
  intro hc
  apply h
  have hd := congrArg String.data hc
  rw [String.data_append] at hd
  rcases s with ⟨sd⟩
  rcases t with ⟨td⟩
  simp at hd
  simp [hd.1]

theorem lookup_eraseField_ne (fs : List (String × Json)) {k k' : String} (h : k ≠ k') :
    (eraseField fs k').lookup k = fs.lookup k := by
  induction fs with
  | nil => simp [eraseField]
  | cons hd tl ih =>
      cases hd with
      | mk a b =>
          by_cases ha : a = k'
          · subst ha
            have hbeq : (k == a) = false := by simpa using h
            simp [eraseField, List.lookup, hbeq] at ih ⊢
            exact ih
          · cases hbeq : (k == a) <;>
              simp [eraseField, ha, List.lookup, hbeq] at ih ⊢
            · exact ih

theorem lookup_eraseField_self (fs : List (String × Json)) (k : String) :
    (eraseField fs k).lookup k = none := by
  induction fs with
  | nil => simp [eraseField]
  | cons hd tl ih =>
      cases hd with
      | mk a b =>
          by_cases ha : a = k
          · simp [eraseField, ha] at ih ⊢
            exact ih
          · have hbeq : (k == a) = false := by simpa using fun hk => ha hk.symm
            simp [eraseField, ha, List.lookup, hbeq] at ih ⊢
            exact ih

theorem lookup_setField_ne (fs : List (String × Json)) {k k' : String} (v : Json)
    (h : k ≠ k') : (setField fs k' v).lookup k = fs.lookup k := by
  induction fs with
  | nil => simp [setField, List.lookup, show (k == k') = false by simpa using h]
  | cons hd tl ih =>
      cases hd with
      | mk a b =>
          by_cases ha : a = k'
          · subst ha
            simp [setField, List.lookup, show (k == a) = false by simpa using h]
          · cases hbeq : (k == a) <;> simp [setField, ha, List.lookup, hbeq]
            · exact ih

theorem lookup_setField_self (fs : List (String × Json)) (k : String) (v : Json) :
    (setField fs k v).lookup k = some v := by
  induction fs with
  | nil => simp [setField, List.lookup]
  | cons hd tl ih =>
      cases hd with
      | mk a b =>
          by_cases ha : a = k
          · subst ha
            simp [setField, List.lookup]
          · have hbeq : (k == a) = false := by simpa using fun hk => ha hk.symm
            simp [setField, ha, List.lookup, hbeq]
            exact ih

theorem setField_of_lookup_eq (fs : List (String × Json)) (k : String) (v : Json)
    (h : fs.lookup k = some v) : setField fs k v = fs := by
  induction fs with
  | nil => simp [List.lookup] at h
  | cons hd tl ih =>
      cases hd with
      | mk a b =>
          by_cases ha : a = k
          · subst ha
            simp [List.lookup] at h
            simp [setField, h]
          · have hbeq : (k == a) = false := by simpa using fun hk => ha hk.symm
            simp [List.lookup, hbeq] at h
            simp [setField, ha, ih h]

/-! ## Claims -/

/-- C8, counterexample.  `ChatDisplayController.get_agent_response` is given
a message list whose most recent message is assistant-authored (agent role
names have the form `"Agent (<model>)"`, which is neither `"User"` nor
`"App"`): the claim requires it to return immediately without invoking the
agent, but the streaming request is invoked. -/
theorem c8_counterexample :
    get_agent_response_invocation ["User", "Agent (gpt-4o)"] true = .streaming ∧
    "Agent (gpt-4o)" ≠ USER_NAME ∧ "Agent (gpt-4o)" ≠ APP_ROLE_NAME := by
  refine ⟨rfl, by decide, by decide⟩

/-- C8, amended: `AgentController.recieve_message` returns without invoking
the agent whenever the newest message is not user-authored, and otherwise
dispatches to streaming or batch according to the `streamable` flag;
`ChatDisplayController.get_agent_response`, however, only returns early for
an app-authored newest message — any other non-user author (in particular
the assistant) still triggers the dispatch. -/
theorem c8_last_message_guards (role_names : List String) (streamable : Bool)
    (last : String) (h : role_names.getLast? = some last) :
    (last ≠ USER_NAME → recieve_message role_names streamable = .noRequest) ∧
    (last = USER_NAME →
      recieve_message role_names streamable = if streamable then .streaming else .batch) ∧
    (last = APP_ROLE_NAME →
      get_agent_response_invocation role_names streamable = .noRequest) ∧
    (last ≠ APP_ROLE_NAME →
      get_agent_response_invocation role_names streamable =
        if streamable then .streaming else .batch) := by
  refine ⟨fun hne => ?_, fun heq => ?_, fun heq => ?_, fun hne => ?_⟩ <;>
    simp only [recieve_message, get_agent_response_invocation, h]
  · simp [hne]
  · simp [heq]
  · simp [heq]
  · simp [hne]

/-- C8 witness: concrete instantiations of both guards. -/
theorem c8_last_message_guards_witness :
    recieve_message ["Agent (gpt-4o)"] true = .noRequest ∧
    get_agent_response_invocation ["App"] false = .noRequest := by
  exact ⟨(c8_last_message_guards ["Agent (gpt-4o)"] true "Agent (gpt-4o)" rfl).1 (by decide),
    (c8_last_message_guards ["App"] false "App" rfl).2.2.1 rfl⟩

/-- C9, counterexample.  Submitting the empty text (and a whitespace-only
text) is not a no-op: `send_message` publishes a user-authored message
unchanged, and the downstream guard then requests an agent turn, because
the newest message is not app-authored. -/
theorem c9_counterexample :
    send_message "" = [{ role_name := "User", display_content := "", system_content := "" }] ∧
    triggers_agent_turn (send_message "") = true ∧
    triggers_agent_turn (send_message " ") = true := by
  refine ⟨rfl, by decide, by decide⟩

/-- C9, amended: `send_message` contains no emptiness or whitespace check —
every submitted text, including the empty and whitespace-only ones, is
wrapped into a user-authored message, persisted and published, and an agent
turn is triggered for it. -/
theorem c9_no_empty_message_guard (text : String) :
    send_message text =
      [{ role_name := USER_NAME, display_content := text, system_content := text }] ∧
    triggers_agent_turn (send_message text) = true := by
  exact ⟨rfl, by simp [send_message, triggers_agent_turn, USER_NAME, APP_ROLE_NAME]⟩

/-- C1, counterexample.  The `mcp_tools` registry's `call_tool` raises
rather than returning an error-flagged result: a qualified name without the
`__` separator raises `ValueError` from tuple unpacking even when every
server is healthy, and a connection/execution failure for the named server
propagates to the caller (`Except.error` models the raised exception). -/
theorem c1_counterexample :
    mcp_tools_call_tool
      (fun _ _ _ => .ok { content := .parts [.textPart "ok"], is_error := false })
      "ghost" (.obj []) =
      .error "ValueError: not enough values to unpack (expected 2, got 1)" ∧
    mcp_tools_call_tool (fun _ _ _ => .error "Connection closed") "ghost__foo" (.obj []) =
      .error "Connection closed" := by
  exact ⟨rfl, rfl⟩

/-- C1, amended: the legacy registry's `call_tool` is total and converts
each failure into a `ToolCallResult` with `is_error = true` and a non-empty
message — missing `/` separator, no active session for the named server,
and a raised remote invocation alike; the `mcp_tools` registry's
`call_tool`, by contrast, propagates exceptions to its caller: a name
without the `__` separator raises `ValueError`, and a raised remote
invocation is re-raised unchanged. -/
theorem c1_call_tool_error_handling :
    (∀ sessions loads remote name args tool_call_id,
      splitSlash name = none →
        (legacy_call_tool sessions loads remote name args tool_call_id).is_error = true ∧
        (legacy_call_tool sessions loads remote name args tool_call_id).content ≠ "") ∧
    (∀ sessions loads remote name args tool_call_id server tool,
      splitSlash name = some (server, tool) →
      sessions.contains server = false →
        (legacy_call_tool sessions loads remote name args tool_call_id).is_error = true ∧
        (legacy_call_tool sessions loads remote name args tool_call_id).content ≠ "") ∧
    (∀ sessions loads remote name j tool_call_id server tool e,
      splitSlash name = some (server, tool) →
      sessions.contains server = true →
      remote server tool j = .error e →
        (legacy_call_tool sessions loads remote name (.dict j) tool_call_id).is_error = true ∧
        (legacy_call_tool sessions loads remote name (.dict j) tool_call_id).content ≠ "") ∧
    (∀ remote name args, splitDunder name = none →
        mcp_tools_call_tool remote name args =
          .error "ValueError: not enough values to unpack (expected 2, got 1)") ∧
    (∀ remote name args server tool e,
      splitDunder name = some (server, tool) →
      remote server tool args = .error e →
        mcp_tools_call_tool remote name args = .error e) := by
  refine ⟨?_, ?_, ?_, ?_, ?_⟩
  · intro sessions loads remote name args tool_call_id h
    refine ⟨by simp [legacy_call_tool, h], ?_⟩
    simp only [legacy_call_tool, h]
    apply append_str_ne_empty
    apply append_str_ne_empty
    decide
  · intro sessions loads remote name args tool_call_id server tool h hc
    have hmem : server ∉ sessions := by simpa using hc
    refine ⟨by simp [legacy_call_tool, h, hmem], ?_⟩
    simp [legacy_call_tool, h, hmem]
    apply append_str_ne_empty
    apply append_str_ne_empty
    apply append_str_ne_empty
    apply append_str_ne_empty
    decide
  · intro sessions loads remote name j tool_call_id server tool e h hc hr
    have hmem : server ∈ sessions := by simpa using hc
    refine ⟨by simp [legacy_call_tool, h, hmem, hr], ?_⟩
    simp [legacy_call_tool, h, hmem, hr]
    apply append_str_ne_empty
    apply append_str_ne_empty
    apply append_str_ne_empty
    apply append_str_ne_empty
    apply append_str_ne_empty
    decide
  · intro remote name args h
    simp only [mcp_tools_call_tool, h]
  · intro remote name args server tool e h hr
    simp only [mcp_tools_call_tool, h, hr]

/-- C1 witness: the legacy conjuncts at concrete inputs (no separator,
unknown server, raised remote call) and the `mcp_tools` conjuncts at a
separator-free name and a raising remote call. -/
theorem c1_call_tool_error_handling_witness :
    ((legacy_call_tool [] (fun _ => none) (fun _ _ _ => .ok ⟨.parts [], false⟩)
        "noslash" (.dict (.obj [])) none).is_error = true ∧
      (legacy_call_tool [] (fun _ => none) (fun _ _ _ => .ok ⟨.parts [], false⟩)
        "noslash" (.dict (.obj [])) none).content ≠ "") ∧
    ((legacy_call_tool [] (fun _ => none) (fun _ _ _ => .ok ⟨.parts [], false⟩)
        "ghost/foo" (.dict (.obj [])) none).is_error = true ∧
      (legacy_call_tool [] (fun _ => none) (fun _ _ _ => .ok ⟨.parts [], false⟩)
        "ghost/foo" (.dict (.obj [])) none).content ≠ "") ∧
    ((legacy_call_tool ["s"] (fun _ => none) (fun _ _ _ => .error "boom")
        "s/echo" (.dict (.obj [])) none).is_error = true ∧
      (legacy_call_tool ["s"] (fun _ => none) (fun _ _ _ => .error "boom")
        "s/echo" (.dict (.obj [])) none).content ≠ "") ∧
    mcp_tools_call_tool (fun _ _ _ => .error "boom") "nodunder" (.obj []) =
      .error "ValueError: not enough values to unpack (expected 2, got 1)" ∧
    mcp_tools_call_tool (fun _ _ _ => .error "boom") "s__echo" (.obj []) = .error "boom" := by
  refine ⟨?_, ?_, ?_, ?_, ?_⟩
  · exact c1_call_tool_error_handling.1 [] (fun _ => none)
      (fun _ _ _ => .ok ⟨.parts [], false⟩) "noslash" (.dict (.obj [])) none rfl
  · exact c1_call_tool_error_handling.2.1 [] (fun _ => none)
      (fun _ _ _ => .ok ⟨.parts [], false⟩) "ghost/foo" (.dict (.obj [])) none
      "ghost" "foo" rfl rfl
  · exact c1_call_tool_error_handling.2.2.1 ["s"] (fun _ => none)
      (fun _ _ _ => .error "boom") "s/echo" (.obj []) none "s" "echo" "boom" rfl rfl rfl
  · exact c1_call_tool_error_handling.2.2.2.1 (fun _ _ _ => .error "boom")
      "nodunder" (.obj []) rfl
  · exact c1_call_tool_error_handling.2.2.2.2 (fun _ _ _ => .error "boom")
      "s__echo" (.obj []) "s" "echo" "boom" rfl rfl

/-- C10, counterexample.  When the remote result's content is a list of two
bare strings, the legacy `call_tool` returns the newline-join of **all** of
them: the second part reaches the caller, contradicting the claim that
every part after the first is discarded. -/
theorem c10_counterexample :
    (legacy_call_tool ["s"] (fun _ => none)
      (fun _ _ _ => .ok { content := .parts [.plainStr "a", .plainStr "b"], is_error := false })
      "s/echo" (.dict (.obj [])) none).content = "a\nb" ∧
    ("a\nb" : String) ≠ "a" := by
  exact ⟨rfl, by decide⟩

/-- C10, amended: when the first part carries a `.text` str attribute the
legacy `call_tool` returns exactly that text (later parts discarded); when
the content is a non-empty list of bare strings it returns the newline-join
of **all** parts; and the `mcp_tools` `call_tool` always returns exactly the
first part's text. -/
theorem c10_content_from_parts :
    (∀ sessions loads remote name j tool_call_id server tool t rest b,
      splitSlash name = some (server, tool) →
      sessions.contains server = true →
      remote server tool j = .ok { content := .parts (.textPart t :: rest), is_error := b } →
        legacy_call_tool sessions loads remote name (.dict j) tool_call_id =
          { tool_use_id := tool_call_id, content := t, is_error := b }) ∧
    (∀ sessions loads remote name j tool_call_id server tool l b,
      splitSlash name = some (server, tool) →
      sessions.contains server = true →
      remote server tool j = .ok { content := .parts l, is_error := b } →
      allPlainStr l = true → l ≠ [] →
        legacy_call_tool sessions loads remote name (.dict j) tool_call_id =
          { tool_use_id := tool_call_id, content := joinSep "\n" (l.map strOfPart),
            is_error := b }) ∧
    (∀ remote name args server tool t rest b,
      splitDunder name = some (server, tool) →
      remote server tool args = .ok { content := .parts (.textPart t :: rest), is_error := b } →
        mcp_tools_call_tool remote name args = .ok (.obj [("content", .str t)])) := by
  refine ⟨?_, ?_, ?_⟩
  · intro sessions loads remote name j tool_call_id server tool t rest b h hc hr
    have hmem : server ∈ sessions := by simpa using hc
    simp [legacy_call_tool, h, hmem, hr, normalize_content]
  · intro sessions loads remote name j tool_call_id server tool l b h hc hr hall hne
    have hmem : server ∈ sessions := by simpa using hc
    cases l with
    | nil => exact absurd rfl hne
    | cons first rest =>
        cases first with
        | textPart t => simp [allPlainStr] at hall
        | plainStr s =>
            simp [legacy_call_tool, h, hmem, hr, normalize_content, hall, strOfPart]
        | otherPart r => simp [allPlainStr] at hall
  · intro remote name args server tool t rest b h hr
    simp [mcp_tools_call_tool, h, hr]

/-- C10 witness: the three conjuncts at concrete inputs. -/
theorem c10_content_from_parts_witness :
    legacy_call_tool ["s"] (fun _ => none)
      (fun _ _ _ => .ok { content := .parts [.textPart "first", .textPart "second"],
                          is_error := false })
      "s/echo" (.dict (.obj [])) none =
      { tool_use_id := none, content := "first", is_error := false } ∧
    legacy_call_tool ["s"] (fun _ => none)
      (fun _ _ _ => .ok { content := .parts [.plainStr "a", .plainStr "b"], is_error := false })
      "s/echo" (.dict (.obj [])) none =
      { tool_use_id := none, content := joinSep "\n" ["a", "b"], is_error := false } ∧
    mcp_tools_call_tool
      (fun _ _ _ => .ok { content := .parts [.textPart "first", .textPart "second"],
                          is_error := false })
      "s__echo" (.obj []) = .ok (.obj [("content", .str "first")]) := by
  refine ⟨?_, ?_, ?_⟩
  · exact c10_content_from_parts.1 ["s"] (fun _ => none)
      (fun _ _ _ => .ok ⟨.parts [.textPart "first", .textPart "second"], false⟩)
      "s/echo" (.obj []) none "s" "echo" "first" [.textPart "second"] false rfl rfl rfl
  · have := c10_content_from_parts.2.1 ["s"] (fun _ => none)
      (fun _ _ _ => .ok ⟨.parts [.plainStr "a", .plainStr "b"], false⟩)
      "s/echo" (.obj []) none "s" "echo" [.plainStr "a", .plainStr "b"] false
      rfl rfl rfl rfl (by simp)
    simpa [strOfPart] using this
  · exact c10_content_from_parts.2.2
      (fun _ _ _ => .ok ⟨.parts [.textPart "first", .textPart "second"], false⟩)
      "s__echo" (.obj []) "s" "echo" "first" [.textPart "second"] false rfl rfl

/-- Helper for C4: every connected session name comes from the config. -/
theorem legacy_connect_subset {configs : List (String × ServerConfig)}
    {connectOutcome : String → Except String Unit} {x : String}
    (h : x ∈ legacy_connect configs connectOutcome) : x ∈ configs.map Prod.fst := by
  induction configs with
  | nil => simp [legacy_connect] at h
  | cons hd tl ih =>
      cases hd with
      | mk n cfg =>
          simp only [legacy_connect] at h
          by_cases hd : cfg.disabled
          · simp only [hd, if_true] at h
            exact List.mem_cons_of_mem _ (ih h)
          · simp only [hd, if_false] at h
            rcases hk : cfg.kind with hasArgs | _ | _ <;> rw [hk] at h
            · by_cases ha : hasArgs
              · simp only [ha, Bool.not_true] at h
                rcases hco : connectOutcome n with u | _ <;> rw [hco] at h
                · exact List.mem_cons_of_mem _ (ih h)
                · rcases List.mem_cons.mp h with hx | hx
                  · simp [hx]
                  · exact List.mem_cons_of_mem _ (ih hx)
              · simp only [ha, Bool.not_false, if_true] at h
                exact List.mem_cons_of_mem _ (ih h)
            · rcases hco : connectOutcome n with u | _ <;> rw [hco] at h
              · exact List.mem_cons_of_mem _ (ih h)
              · rcases List.mem_cons.mp h with hx | hx
                · simp [hx]
                · exact List.mem_cons_of_mem _ (ih hx)
            · exact List.mem_cons_of_mem _ (ih h)

/-- Helper for C4: an enabled, well-formed, reachable server gets a
session. -/
theorem legacy_connect_mem {configs : List (String × ServerConfig)}
    {connectOutcome : String → Except String Unit} {name : String} {cfg : ServerConfig}
    (hmem : (name, cfg) ∈ configs) (hdis : cfg.disabled = false)
    (hkind : cfg.kind = .url ∨ cfg.kind = .command true)
    (hconn : connectOutcome name = .ok ()) :
    name ∈ legacy_connect configs connectOutcome := by
  induction configs with
  | nil => simp at hmem
  | cons hd tl ih =>
      rcases List.mem_cons.mp hmem with heq | htl
      · cases heq
        simp only [legacy_connect, hdis, if_false]
        rcases hkind with hk | hk <;> rw [hk] <;> simp [hconn]
      · cases hd with
        | mk n' cfg' =>
            simp only [legacy_connect]
            by_cases hd' : cfg'.disabled
            · simpa [hd'] using ih htl
            · simp only [hd', if_false]
              rcases cfg'.kind with hasArgs | _ | _
              · by_cases ha : hasArgs
                · subst ha
                  rcases hco : connectOutcome n' with u | _
                  · simpa using ih htl
                  · simpa using List.mem_cons_of_mem _ (ih htl)
                · simp only [Bool.not_eq_true] at ha
                  subst ha
                  simpa using ih htl
              · rcases hco : connectOutcome n' with u | _
                · simpa using ih htl
                · simpa using List.mem_cons_of_mem _ (ih htl)
              · simpa using ih htl

/-- Helper for C4: tools of a session whose listing succeeds are all in the
result, whatever happens to the other sessions. -/
theorem legacy_list_tools_mem {sessions : List String}
    {listOutcome : String → Except String (List MTool)} {s : String} {ts : List MTool}
    {t : MTool} (hs : s ∈ sessions) (hok : listOutcome s = .ok ts) (ht : t ∈ ts) :
    { t with name := s ++ "/" ++ t.name } ∈ legacy_list_tools sessions listOutcome := by
  induction sessions with
  | nil => simp at hs
  | cons hd tl ih =>
      simp only [legacy_list_tools, List.mem_append]
      rcases List.mem_cons.mp hs with heq | htl
      · subst heq
        rw [hok]
        exact Or.inl (List.mem_map_of_mem _ ht)
      · exact Or.inr (ih htl)

/-- Helper for C4: when every session's listing fails the result is the
empty list (not an error). -/
theorem legacy_list_tools_all_fail {sessions : List String}
    {listOutcome : String → Except String (List MTool)}
    (h : ∀ s ∈ sessions, ∃ e, listOutcome s = .error e) :
    legacy_list_tools sessions listOutcome = [] := by
  induction sessions with
  | nil => rfl
  | cons hd tl ih =>
      obtain ⟨e, he⟩ := h hd (List.mem_cons_self ..)
      simp only [legacy_list_tools, he]
      exact ih (fun s hs => h s (List.mem_cons_of_mem _ hs))

/-- Helper for C4: every returned tool name has the `server/local` shape for
a connected server. -/
theorem legacy_list_tools_shape {sessions : List String}
    {listOutcome : String → Except String (List MTool)} {t : MTool}
    (h : t ∈ legacy_list_tools sessions listOutcome) :
    ∃ s t0, s ∈ sessions ∧ t.name = s ++ "/" ++ t0 := by
  induction sessions with
  | nil => simp [legacy_list_tools] at h
  | cons hd tl ih =>
      simp only [legacy_list_tools, List.mem_append] at h
      rcases h with h | h
      · rcases hls : listOutcome hd with e | ts <;> rw [hls] at h
        · simp at h
        · obtain ⟨t0, _ht0, heq⟩ := List.mem_map.mp h
          exact ⟨hd, t0.name, List.mem_cons_self .., by rw [← heq]⟩
      · obtain ⟨s, t0, hs, hn⟩ := ih h
        exact ⟨s, t0, List.mem_cons_of_mem _ hs, hn⟩

/-- Helper for C4: the `mcp_tools` cache aborts with an error as soon as any
enabled entry is invalid or fails, whatever the accumulator. -/
theorem cache_tool_list_go_error {config : List (String × ServerConfig)}
    {listFromServer : String → Except String (List MTool)}
    (h : ∃ p ∈ config, p.2.disabled = false ∧
      (p.2.kind = .neither ∨ ∃ e, listFromServer p.1 = .error e)) :
    ∀ acc, ∃ e, cache_tool_list_go listFromServer config acc = .error e := by
  induction config with
  | nil => simp at h
  | cons hd tl ih =>
      obtain ⟨p, hp, hen, hfail⟩ := h
      intro acc
      cases hd with
      | mk n cfg =>
          simp only [cache_tool_list_go]
          by_cases hd' : cfg.disabled
          · rcases List.mem_cons.mp hp with heq | htl
            · rw [heq] at hen
              simp [hd'] at hen
            · simp only [hd', if_true]
              exact ih ⟨p, htl, hen, hfail⟩ acc
          · simp only [hd', if_false]
            rcases hknd : cfg.kind with hasArgs | _ | _
            · rcases hls : listFromServer n with e | ts
              · exact ⟨e, rfl⟩
              · rcases List.mem_cons.mp hp with heq | htl
                · cases heq
                  rcases hfail with hk | ⟨e, he⟩
                  · simp [hknd] at hk
                  · rw [hls] at he
                    cases he
                · exact ih ⟨p, htl, hen, hfail⟩ _
            · rcases hls : listFromServer n with e | ts
              · exact ⟨e, rfl⟩
              · rcases List.mem_cons.mp hp with heq | htl
                · cases heq
                  rcases hfail with hk | ⟨e, he⟩
                  · simp [hknd] at hk
                  · rw [hls] at he
                    cases he
                · exact ih ⟨p, htl, hen, hfail⟩ _
            · exact ⟨"ValueError: Invalid MCP server config", rfl⟩

/-- Helper for C4: a disabled entry is never connected (config keys are
unique, as they are keys of one JSON object). -/
theorem legacy_connect_disabled_not_mem {configs : List (String × ServerConfig)}
    {connectOutcome : String → Except String Unit} {name : String} {cfg : ServerConfig}
    (hnd : (configs.map Prod.fst).Nodup) (hmem : (name, cfg) ∈ configs)
    (hdis : cfg.disabled = true) :
    name ∉ legacy_connect configs connectOutcome := by
  induction configs with
  | nil => simp at hmem
  | cons hd tl ih =>
      cases hd with
      | mk n' cfg' =>
          rw [List.map_cons] at hnd
          obtain ⟨hn1, hn2⟩ := List.nodup_cons.mp hnd
          intro hin
          simp only [legacy_connect] at hin
          rcases List.mem_cons.mp hmem with heq | htl
          · have hn : n' = name := (congrArg Prod.fst heq).symm
            have hc : cfg' = cfg := (congrArg Prod.snd heq).symm
            subst hn
            subst hc
            rw [hdis, if_pos rfl] at hin
            exact hn1 (legacy_connect_subset hin)
          · have hmm : name ∈ tl.map Prod.fst := List.mem_map_of_mem Prod.fst htl
            have hne : name ≠ n' := fun h' => hn1 (h' ▸ hmm)
            by_cases hd' : cfg'.disabled
            · rw [if_pos hd'] at hin
              exact ih hn2 htl hin
            · rw [if_neg hd'] at hin
              rcases hk : cfg'.kind with (_ | _) | _ | _ <;> rw [hk] at hin
              · simp only [Bool.not_false, if_pos] at hin
                exact ih hn2 htl (by simpa using hin)
              · simp only [Bool.not_true] at hin
                rcases hco : connectOutcome n' with u | _ <;> rw [hco] at hin
                · exact ih hn2 htl (by simpa using hin)
                · rcases List.mem_cons.mp (by simpa using hin) with hx | hx
                  · exact hne hx
                  · exact ih hn2 htl hx
              · rcases hco : connectOutcome n' with u | _ <;> rw [hco] at hin
                · exact ih hn2 htl hin
                · rcases List.mem_cons.mp hin with hx | hx
                  · exact hne hx
                  · exact ih hn2 htl hx
              · exact ih hn2 htl hin

/-- C4, counterexample.  Two enabled servers, the first unreachable and the
second healthy: the `mcp_tools` registry's tool enumeration raises the
first server's error instead of skipping it, so the second server's tools
are not returned and the result is a raised error rather than a (partial or
empty) list. -/
theorem c4_counterexample :
    mcp_tools_cache_tool_list
      [("a", { disabled := false, kind := .command true }),
       ("b", { disabled := false, kind := .command true })]
      (fun n => if n = "a" then .error "boom"
                else .ok [{ name := "t", description := "d", inputSchema := .obj [] }]) =
      .error "boom" := by
  rfl

/-- C4, amended: the legacy registry's `connect`/`list_tools` satisfy the
claim — disabled entries are never connected, an enabled well-formed
reachable server is connected, a server whose listing succeeds contributes
all of its tools prefixed `server/tool` regardless of other servers'
failures, total failure yields the empty list, and every returned name has
a connected server's prefixed shape; the `mcp_tools` registry's cached
enumeration, however, aborts with a raised error as soon as one enabled
entry is invalid or unreachable. -/
theorem c4_list_tools_contract :
    (∀ (configs : List (String × ServerConfig)) connectOutcome name cfg,
      (configs.map Prod.fst).Nodup → (name, cfg) ∈ configs → cfg.disabled = true →
        name ∉ legacy_connect configs connectOutcome) ∧
    (∀ (configs : List (String × ServerConfig)) connectOutcome name cfg,
      (name, cfg) ∈ configs → cfg.disabled = false →
      (cfg.kind = .url ∨ cfg.kind = .command true) → connectOutcome name = .ok () →
        name ∈ legacy_connect configs connectOutcome) ∧
    (∀ sessions listOutcome s ts (t : MTool),
      s ∈ sessions → listOutcome s = .ok ts → t ∈ ts →
        { t with name := s ++ "/" ++ t.name } ∈ legacy_list_tools sessions listOutcome) ∧
    (∀ sessions listOutcome,
      (∀ s ∈ sessions, ∃ e, listOutcome s = .error e) →
        legacy_list_tools sessions listOutcome = []) ∧
    (∀ sessions listOutcome (t : MTool),
      t ∈ legacy_list_tools sessions listOutcome →
        ∃ s t0, s ∈ sessions ∧ t.name = s ++ "/" ++ t0) ∧
    (∀ (config : List (String × ServerConfig)) listFromServer,
      (∃ p ∈ config, p.2.disabled = false ∧
        (p.2.kind = .neither ∨ ∃ e, listFromServer p.1 = .error e)) →
        ∃ e, mcp_tools_cache_tool_list config listFromServer = .error e) := by
  refine ⟨?_, ?_, ?_, ?_, ?_, ?_⟩
  · intro configs connectOutcome name cfg hnd hmem hdis
    exact legacy_connect_disabled_not_mem hnd hmem hdis
  · intro configs connectOutcome name cfg hmem hdis hkind hconn
    exact legacy_connect_mem hmem hdis hkind hconn
  · intro sessions listOutcome s ts t hs hok ht
    exact legacy_list_tools_mem hs hok ht
  · intro sessions listOutcome h
    exact legacy_list_tools_all_fail h
  · intro sessions listOutcome t h
    exact legacy_list_tools_shape h
  · intro config listFromServer h
    exact cache_tool_list_go_error h []

/-- C4 witness: the contract at concrete inputs — a disabled server is not
connected, an enabled one is, its tools are listed with the `/`-separated
server name, total failure gives `[]`, the shape of a returned name, and
the `mcp_tools` abort. -/
theorem c4_list_tools_contract_witness :
    "off" ∉ legacy_connect
      [("off", { disabled := true, kind := .url }),
       ("on", { disabled := false, kind := .url })] (fun _ => .ok ()) ∧
    "on" ∈ legacy_connect
      [("off", { disabled := true, kind := .url }),
       ("on", { disabled := false, kind := .url })] (fun _ => .ok ()) ∧
    ({ name := "on" ++ "/" ++ "t", description := "d", inputSchema := .obj [] } : MTool) ∈
      legacy_list_tools ["dead", "on"]
        (fun n => if n = "dead" then .error "down"
                  else .ok [{ name := "t", description := "d", inputSchema := .obj [] }]) ∧
    legacy_list_tools ["dead"] (fun _ => .error "down") = ([] : List MTool) ∧
    (∃ s t0, s ∈ ["on"] ∧ ("on" ++ "/" ++ "t" : String) = s ++ "/" ++ t0) ∧
    (∃ e, mcp_tools_cache_tool_list
      [("a", { disabled := false, kind := .command true }),
       ("b", { disabled := false, kind := .command true })]
      (fun n => if n = "a" then .error "boom"
                else .ok [{ name := "t", description := "d", inputSchema := .obj [] }]) =
      .error e) := by
  refine ⟨?_, ?_, ?_, ?_, ?_, ?_⟩
  · exact c4_list_tools_contract.1
      [("off", { disabled := true, kind := .url }),
       ("on", { disabled := false, kind := .url })] (fun _ => .ok ()) "off"
      { disabled := true, kind := .url } (by decide) (by simp) rfl
  · exact c4_list_tools_contract.2.1
      [("off", { disabled := true, kind := .url }),
       ("on", { disabled := false, kind := .url })] (fun _ => .ok ()) "on"
      { disabled := false, kind := .url } (by simp) rfl (Or.inl rfl) rfl
  · exact c4_list_tools_contract.2.2.1 ["dead", "on"]
      (fun n => if n = "dead" then .error "down"
                else .ok [{ name := "t", description := "d", inputSchema := .obj [] }])
      "on" [{ name := "t", description := "d", inputSchema := .obj [] }]
      { name := "t", description := "d", inputSchema := .obj [] }
      (by simp) (by simp) (by simp)
  · exact c4_list_tools_contract.2.2.2.1 ["dead"] (fun _ => .error "down")
      (fun s _ => ⟨"down", rfl⟩)
  · exact c4_list_tools_contract.2.2.2.2.1 ["on"]
      (fun _ => .ok [{ name := "t", description := "d", inputSchema := .obj [] }])
      { name := "on" ++ "/" ++ "t", description := "d", inputSchema := .obj [] }
      (by simp [legacy_list_tools])
  · exact c4_list_tools_contract.2.2.2.2.2
      [("a", { disabled := false, kind := .command true }),
       ("b", { disabled := false, kind := .command true })]
      (fun n => if n = "a" then .error "boom"
                else .ok [{ name := "t", description := "d", inputSchema := .obj [] }])
      ⟨("a", { disabled := false, kind := .command true }), by simp, rfl,
        Or.inr ⟨"boom", by simp⟩⟩

/-- Helper: the Claude round loop makes at most `fuel` further provider
calls and never drives `call_count` past `MAX_REQUEST_COUNT` (when it
started below it). -/
theorem claude_loop_bounds (prov : Nat → Except TransportError ClaudeResponse)
    (tc : Nat → String) :
    ∀ fuel st st', claude_loop prov tc fuel st = .ok st' →
      st'.next_call ≤ st.next_call + fuel ∧
      st'.call_count ≤ max st.call_count MAX_REQUEST_COUNT := by
  intro fuel
  induction fuel with
  | zero =>
      intro st st' h
      simp only [claude_loop] at h
      cases h
      exact ⟨Nat.le_refl _, Nat.le_max_left ..⟩
  | succ n ih =>
      intro st st' h
      simp only [claude_loop] at h
      split at h
      · split at h
        · split at h
          · cases h
          · split at h
            · cases h
              constructor
              · show st.next_call + 1 ≤ st.next_call + (n + 1)
                omega
              · show st.call_count + 1 ≤ max st.call_count MAX_REQUEST_COUNT
                exact Nat.le_trans (by omega) (Nat.le_max_right ..)
            · obtain ⟨h1, h2⟩ := ih _ _ h
              constructor
              · refine Nat.le_trans h1 ?_
                show st.next_call + 1 + n ≤ st.next_call + (n + 1)
                omega
              · refine Nat.le_trans h2 ?_
                have hmax : max (st.call_count + 1) MAX_REQUEST_COUNT = MAX_REQUEST_COUNT :=
                  Nat.max_eq_right (by omega)
                rw [hmax]
                exact Nat.le_max_right ..
        · cases h
          exact ⟨Nat.le_add_right _ _, Nat.le_max_left ..⟩
      · cases h
        exact ⟨Nat.le_add_right _ _, Nat.le_max_left ..⟩

/-- Helper: the Gemini round loop makes at most `fuel` further provider
calls and never drives `cnt` past `MAX_REQUEST_COUNT` (when it started
below it). -/
theorem gemini_loop_bounds (prov : Nat → Except TransportError GeminiResponse)
    (tc : Nat → Except String Json) :
    ∀ fuel st st', gemini_loop prov tc fuel st = .ok st' →
      st'.provider_calls ≤ st.provider_calls + fuel ∧
      st'.cnt ≤ max st.cnt MAX_REQUEST_COUNT := by
  intro fuel
  induction fuel with
  | zero =>
      intro st st' h
      simp only [gemini_loop] at h
      cases h
      exact ⟨Nat.le_refl _, Nat.le_max_left ..⟩
  | succ n ih =>
      intro st st' h
      simp only [gemini_loop] at h
      split at h
      · split at h
        · cases h
        · split at h
          · cases h
          · split at h
            · cases h
              constructor
              · show st.provider_calls + 1 ≤ st.provider_calls + (n + 1)
                omega
              · exact Nat.le_max_left ..
            · obtain ⟨h1, h2⟩ := ih _ _ h
              constructor
              · refine Nat.le_trans h1 ?_
                show st.provider_calls + 1 + n ≤ st.provider_calls + (n + 1)
                omega
              · refine Nat.le_trans h2 ?_
                have hmax : max (st.cnt + 1) MAX_REQUEST_COUNT = MAX_REQUEST_COUNT :=
                  Nat.max_eq_right (by omega)
                rw [hmax]
                exact Nat.le_max_right ..
      · cases h
        exact ⟨Nat.le_add_right _ _, Nat.le_max_left ..⟩

/-- C5, counterexample.  `GeminiAgent.request` has no `try`/`except`: a
connection error raised by the transport propagates to the caller instead
of being converted into a diagnostic string. -/
theorem c5_counterexample :
    gemini_request (fun _ => .error (.connection "Connection error."))
      (fun _ => .ok (.obj [])) =
      .error (.transport (.connection "Connection error.")) := by
  rfl

/-- C5, amended: `ClaudeAgent.request` catches every transport error and
returns the matching diagnostic string (a connection error yields
`"API Connection Error: ..."`, which contains `"Connection"`), so no
transport error propagates; `GeminiAgent.request`, however, propagates a
transport error raised on its first provider call to the caller. -/
theorem c5_transport_error_handling :
    (∀ (msg : String) (prov : Nat → Except TransportError ClaudeResponse)
        (tool_content : Nat → String) (initial : List ClaudeMsg),
      claude_request (fun n => if n = 0 then .error (.connection msg) else prov n)
        tool_content initial = "API Connection Error: " ++ msg) ∧
    (∀ prov tool_content initial e,
      claude_request_run prov tool_content initial = .error e →
        claude_request prov tool_content initial = claude_error_text e) ∧
    (∀ msg : String, "Connection".data <:+: ("API Connection Error: " ++ msg).data) ∧
    (∀ e tool_call, gemini_request (fun _ => .error e) tool_call =
      .error (.transport e)) := by
  refine ⟨?_, ?_, ?_, ?_⟩
  · intro msg prov tool_content initial
    simp [claude_request, claude_request_run, claude_error_text]
  · intro prov tool_content initial e h
    simp [claude_request, h]
  · intro msg
    refine ⟨"API ".data, " Error: ".data ++ msg.data, ?_⟩
    rw [String.data_append]
    have hsplit : ("API ".data ++ "Connection".data) ++ " Error: ".data =
        "API Connection Error: ".data := by decide
    rw [← hsplit]
    simp [List.append_assoc]
  · intro e tool_call
    rfl

/-- C5 witness: concrete instantiations, discharging the hypothesis of the
second conjunct with an erroring provider. -/
theorem c5_transport_error_handling_witness :
    claude_request (fun n => if n = 0 then .error (.connection "boom")
                             else .ok { stop_reason := some "end_turn", content := [] })
      (fun _ => "") [] = "API Connection Error: " ++ "boom" ∧
    claude_request (fun _ => .error (.rateLimit "slow down")) (fun _ => "") [] =
      claude_error_text (.rateLimit "slow down") ∧
    "Connection".data <:+: ("API Connection Error: " ++ "boom").data ∧
    gemini_request (fun _ => .error (.otherError "x")) (fun _ => .ok (.obj [])) =
      .error (.transport (.otherError "x")) := by
  refine ⟨?_, ?_, ?_, ?_⟩
  · exact c5_transport_error_handling.1 "boom"
      (fun _ => .ok { stop_reason := some "end_turn", content := [] }) (fun _ => "") []
  · exact c5_transport_error_handling.2.1 (fun _ => .error (.rateLimit "slow down"))
      (fun _ => "") [] (.rateLimit "slow down") rfl
  · exact c5_transport_error_handling.2.2.1 "boom"
  · exact c5_transport_error_handling.2.2.2 (.otherError "x") (fun _ => .ok (.obj []))

/-- C2, counterexample.  A Gemini provider stub that answers every round
with a function-call part: the loop does stop after `MAX_REQUEST_COUNT = 5`
rounds (five provider calls, five tool executions), but `request` then
returns `" ".join([]) = ""` — the empty string, with no
`"[Tool use completed]"` or `"No response generated"` sentinel. -/
theorem c2_counterexample :
    gemini_request_run (fun _ => .ok [.function_call "date__today" (.obj [])])
      (fun _ => .ok (.obj [("content", .str "x")])) =
      .ok { cnt := 5, provider_calls := 5, tool_calls := 5, final_content := [] } ∧
    gemini_request (fun _ => .ok [.function_call "date__today" (.obj [])])
      (fun _ => .ok (.obj [("content", .str "x")])) = .ok "" := by
  exact ⟨rfl, rfl⟩

/-- C2, amended: for every provider behaviour both round loops terminate
within the shared `MAX_REQUEST_COUNT` bound — the Claude loop runs at most
`MAX_REQUEST_COUNT` rounds (at most `MAX_REQUEST_COUNT + 1` provider
calls) and `ClaudeAgent.request` always returns a non-empty string (text,
a sentinel, or an error diagnostic); the Gemini loop makes at most
`MAX_REQUEST_COUNT` provider calls, but `GeminiAgent.request` returns the
bare space-join of the collected text parts, which is empty when every
round produced only tool calls. -/
theorem c2_round_loop_bounds :
    (∀ prov tool_content initial, claude_request prov tool_content initial ≠ "") ∧
    (∀ prov tool_content initial st,
      claude_request_run prov tool_content initial = .ok st →
        st.call_count ≤ MAX_REQUEST_COUNT ∧ st.next_call ≤ MAX_REQUEST_COUNT + 1) ∧
    (∀ prov tool_call st, gemini_request_run prov tool_call = .ok st →
        st.cnt ≤ MAX_REQUEST_COUNT ∧ st.provider_calls ≤ MAX_REQUEST_COUNT ∧
        gemini_request prov tool_call = .ok (joinSep " " st.final_content)) := by
  refine ⟨?_, ?_, ?_⟩
  · intro prov tool_content initial
    unfold claude_request
    rcases hr : claude_request_run prov tool_content initial with e | st
    · cases e <;> simp only [claude_error_text] <;>
        (try (apply append_str_ne_empty; decide)) <;>
        (apply append_str_ne_empty; apply append_str_ne_empty;
         apply append_str_ne_empty; decide)
    · simp only []
      split
      · apply append_str_ne_empty
        apply append_str_ne_empty
        decide
      · split
        · decide
        · rename_i hne
          simpa using hne
  · intro prov tool_content initial st h
    unfold claude_request_run at h
    rcases hpr : prov 0 with e | r0 <;> rw [hpr] at h
    · cases h
    · obtain ⟨h1, h2⟩ := claude_loop_bounds prov tool_content MAX_REQUEST_COUNT _ _ h
      simp at h1 h2
      exact ⟨h2, by omega⟩
  · intro prov tool_call st h
    obtain ⟨h1, h2⟩ := gemini_loop_bounds prov tool_call MAX_REQUEST_COUNT _ _ h
    simp at h1 h2
    refine ⟨h2, h1, ?_⟩
    simp [gemini_request, gemini_request_run] at h ⊢
    rw [h]
    rfl

/-- C2 witness: the bounds at a provider that always tool-calls (Claude
variant ends with the `[Tool use completed]` sentinel; the run states show
the exhausted round budget). -/
theorem c2_round_loop_bounds_witness :
    claude_request
      (fun _ => .ok { stop_reason := some "tool_use",
                      content := [.tool_use "1" "t" (.obj [])] })
      (fun _ => "r") [] ≠ "" ∧
    ((claude_request_run
      (fun _ => .ok { stop_reason := some "tool_use",
                      content := [.tool_use "1" "t" (.obj [])] })
      (fun _ => "r") []).map ClaudeLoopState.call_count = .ok 5 ∧
      5 ≤ MAX_REQUEST_COUNT ∧ 6 ≤ MAX_REQUEST_COUNT + 1) ∧
    (gemini_request_run (fun _ => .ok [.textPart "hello"]) (fun _ => .ok (.obj []))).map
      GeminiLoopState.cnt = .ok 0 := by
  refine ⟨?_, ?_, ?_⟩
  · exact c2_round_loop_bounds.1
      (fun _ => .ok { stop_reason := some "tool_use",
                      content := [.tool_use "1" "t" (.obj [])] }) (fun _ => "r") []
  · have := c2_round_loop_bounds.2.1
      (fun _ => .ok { stop_reason := some "tool_use",
                      content := [.tool_use "1" "t" (.obj [])] }) (fun _ => "r") []
      { claude_messages :=
          (claude_request_run
            (fun _ => .ok { stop_reason := some "tool_use",
                            content := [.tool_use "1" "t" (.obj [])] })
            (fun _ => "r") []).toOption.get (by rfl) |>.claude_messages,
        final_text_parts := [], call_count := 5, next_call := 6,
        response := { stop_reason := some "tool_use",
                      content := [.tool_use "1" "t" (.obj [])] } }
    refine ⟨by rfl, by decide, by decide⟩
  · rfl

/-! ### C3 support: trace decompositions of the two stream handlers. -/

/-- The `input_json_delta` fragment payloads of an event list, in arrival
order. -/
def input_fragments (evts : List StreamEvent) : List String :=
  evts.filterMap (fun e => match e with | .input_json_delta s => some s | _ => none)

/-- The `text_delta` payloads of an event list, in arrival order. -/
def texts_of (evts : List StreamEvent) : List String :=
  evts.filterMap (fun e => match e with | .text_delta s => some s | _ => none)

/-- Events that neither close nor re-open a tool-use block. -/
def mid_event : StreamEvent → Bool
  | .content_block_stop => false
  | .content_block_start_tool _ _ => false
  | _ => true

/-- Helper: while a tool block is open, mid events only append fragments
(in arrival order) and text yields — nothing is parsed or executed. -/
theorem claude_stream_mid (loads : String → Option Json) (mid : List StreamEvent)
    (hmid : ∀ e ∈ mid, mid_event e = true) :
    ∀ tail id name chunks yielded execs,
      claude_stream_events loads (mid ++ tail)
        { current_tool_use_id := some id, current_tool_name := some name,
          current_tool_input_chunks := chunks, yielded := yielded, executed := execs } =
      claude_stream_events loads tail
        { current_tool_use_id := some id, current_tool_name := some name,
          current_tool_input_chunks := chunks ++ input_fragments mid,
          yielded := yielded ++ texts_of mid, executed := execs } := by
  induction mid with
  | nil => intro tail id name chunks yielded execs; simp [input_fragments, texts_of]
  | cons e rest ih =>
      intro tail id name chunks yielded execs
      have he : mid_event e = true := hmid e (List.mem_cons_self ..)
      have hrest : ∀ e ∈ rest, mid_event e = true :=
        fun e he' => hmid e (List.mem_cons_of_mem _ he')
      cases e with
      | content_block_start_tool id' name' => simp [mid_event] at he
      | content_block_start_text =>
          simpa [claude_stream_events, input_fragments, texts_of] using
            ih hrest tail id name chunks yielded execs
      | text_delta s =>
          have := ih hrest tail id name chunks (yielded ++ [s]) execs
          simpa [claude_stream_events, input_fragments, texts_of] using this
      | input_json_delta s =>
          have := ih hrest tail id name (chunks ++ [s]) yielded execs
          simpa [claude_stream_events, input_fragments, texts_of] using this
      | content_block_stop => simp [mid_event] at he
      | message_delta r =>
          simpa [claude_stream_events, input_fragments, texts_of] using
            ih hrest tail id name chunks yielded execs
      | message_stop =>
          simpa [claude_stream_events, input_fragments, texts_of] using
            ih hrest tail id name chunks yielded execs

/-- Helper: before any tool block has started, mid events leave the
accumulator closed and execute nothing. -/
theorem claude_stream_pre (loads : String → Option Json) (pre : List StreamEvent)
    (hpre : ∀ e ∈ pre, mid_event e = true) :
    ∀ tail chunks yielded execs,
      claude_stream_events loads (pre ++ tail)
        { current_tool_use_id := none, current_tool_name := none,
          current_tool_input_chunks := chunks, yielded := yielded, executed := execs } =
      claude_stream_events loads tail
        { current_tool_use_id := none, current_tool_name := none,
          current_tool_input_chunks := chunks, yielded := yielded ++ texts_of pre,
          executed := execs } := by
  induction pre with
  | nil => intro tail chunks yielded execs; simp [texts_of]
  | cons e rest ih =>
      intro tail chunks yielded execs
      have he : mid_event e = true := hpre e (List.mem_cons_self ..)
      have hrest : ∀ e ∈ rest, mid_event e = true :=
        fun e he' => hpre e (List.mem_cons_of_mem _ he')
      cases e with
      | content_block_start_tool id' name' => simp [mid_event] at he
      | content_block_start_text =>
          simpa [claude_stream_events, texts_of] using ih hrest tail chunks yielded execs
      | text_delta s =>
          simpa [claude_stream_events, texts_of] using
            ih hrest tail chunks (yielded ++ [s]) execs
      | input_json_delta s =>
          simpa [claude_stream_events, texts_of] using ih hrest tail chunks yielded execs
      | content_block_stop => simp [mid_event] at he
      | message_delta r =>
          simpa [claude_stream_events, texts_of] using ih hrest tail chunks yielded execs
      | message_stop =>
          simpa [claude_stream_events, texts_of] using ih hrest tail chunks yielded execs

/-- Helper: without a `content_block_stop` event nothing is ever executed. -/
theorem claude_stream_no_stop (loads : String → Option Json) :
    ∀ (evts : List StreamEvent), (∀ e ∈ evts, e ≠ .content_block_stop) →
      ∀ st, (claude_stream_events loads evts st).executed = st.executed := by
  intro evts
  induction evts with
  | nil => intro _ st; rfl
  | cons e rest ih =>
      intro hns st
      have hrest : ∀ e ∈ rest, e ≠ .content_block_stop :=
        fun e he' => hns e (List.mem_cons_of_mem _ he')
      cases e with
      | content_block_start_tool id' name' => exact ih hrest _
      | content_block_start_text => exact ih hrest _
      | text_delta s => exact ih hrest _
      | input_json_delta s =>
          simp only [claude_stream_events]
          rw [ih hrest]
          split <;> rfl
      | content_block_stop => exact absurd rfl (hns _ (List.mem_cons_self ..))
      | message_delta r => exact ih hrest _
      | message_stop => exact ih hrest _

/-- The argument-fragment payloads carried for index `idx` by an OpenAI
chunk list, in arrival order (a fragment lives in `function.arguments` of a
tool-call delta, so chunks without a function payload carry none). -/
def openai_arg_fragments (idx : Nat) (evts : List OpenAIChunkEvent) : List String :=
  evts.filterMap (fun e => match e with
    | .tool_call_delta i _ true _ (some s) => if i = idx then some s else none
    | _ => none)

/-- The `content` delta payloads of an OpenAI chunk list, in arrival
order. -/
def contents_of (evts : List OpenAIChunkEvent) : List String :=
  evts.filterMap (fun e => match e with | .content_delta s => some s | _ => none)

/-- Chunks that stay within tool call `idx` and do not finish the stream. -/
def openai_mid_event (idx : Nat) : OpenAIChunkEvent → Bool
  | .content_delta _ => true
  | .tool_call_delta i _ _ _ _ => i == idx
  | .finish _ => false

/-- Helper: while the per-index buffers hold exactly the one open tool
call, mid chunks only append its argument fragments (in arrival order) and
content yields — nothing is parsed or executed. -/
theorem openai_stream_mid (loads : String → Option Json) (idx : Nat)
    (mid : List OpenAIChunkEvent) (hmid : ∀ e ∈ mid, openai_mid_event idx e = true) :
    ∀ tail id hasFn name acc yielded execs,
      openai_stream_events loads (mid ++ tail)
        { buffers := [(idx, { id := id, hasFunction := hasFn, name := name, args := acc })],
          yielded := yielded, executed := execs } =
      openai_stream_events loads tail
        { buffers := [(idx,
            { id := id, hasFunction := hasFn, name := name,
              args := acc ++ concatChunks (openai_arg_fragments idx mid) })],
          yielded := yielded ++ contents_of mid, executed := execs } := by
  induction mid with
  | nil =>
      intro tail id hasFn name acc yielded execs
      simp [openai_arg_fragments, contents_of, concatChunks]
  | cons e rest ih =>
      intro tail id hasFn name acc yielded execs
      have he : openai_mid_event idx e = true := hmid e (List.mem_cons_self ..)
      have hrest : ∀ e ∈ rest, openai_mid_event idx e = true :=
        fun e he' => hmid e (List.mem_cons_of_mem _ he')
      cases e with
      | content_delta s =>
          have := ih hrest tail id hasFn name acc (yielded ++ [s]) execs
          simpa [openai_stream_events, openai_arg_fragments, contents_of] using this
      | tool_call_delta i id' hasFn' name' a =>
          have hi : i = idx := by simpa [openai_mid_event] using he
          subst hi
          cases hasFn' with
          | false =>
              have := ih hrest tail id hasFn name acc yielded execs
              simpa [openai_stream_events, updateBuffers, appendArgs,
                openai_arg_fragments, contents_of] using this
          | true =>
              cases a with
              | none =>
                  have := ih hrest tail id hasFn name acc yielded execs
                  simpa [openai_stream_events, updateBuffers, appendArgs,
                    openai_arg_fragments, contents_of] using this
              | some s =>
                  by_cases hs : s = ""
                  · subst hs
                    have := ih hrest tail id hasFn name acc yielded execs
                    simpa [openai_stream_events, updateBuffers, appendArgs,
                      openai_arg_fragments, contents_of, concatChunks] using this
                  · have := ih hrest tail id hasFn name (acc ++ s) yielded execs
                    simp [openai_stream_events, updateBuffers, appendArgs, hs,
                      openai_arg_fragments, contents_of, concatChunks,
                      String.append_assoc] at this ⊢
                    exact this
      | finish r => simp [openai_mid_event] at he

/-- Helper: without a `finish` chunk nothing is ever executed. -/
theorem openai_stream_no_finish (loads : String → Option Json) :
    ∀ (evts : List OpenAIChunkEvent), (∀ e ∈ evts, ∀ r, e ≠ .finish r) →
      ∀ st, (openai_stream_events loads evts st).executed = st.executed := by
  intro evts
  induction evts with
  | nil => intro _ st; rfl
  | cons e rest ih =>
      intro hnf st
      have hrest : ∀ e ∈ rest, ∀ r, e ≠ .finish r :=
        fun e he' => hnf e (List.mem_cons_of_mem _ he')
      cases e with
      | content_delta s => exact ih hrest _
      | tool_call_delta i id' hasFn' name' a => exact ih hrest _
      | finish r => exact absurd rfl (hnf _ (List.mem_cons_self ..) r)

/-- C3: in both streaming handlers, partial-JSON tool-call argument
fragments are only accumulated (per open block for Claude, per chunk index
for OpenAI) while the stream runs: without the end-of-tool-call signal
(`content_block_stop` / `finish_reason == "tool_calls"`) nothing is ever
parsed or executed; once the signal arrives the call is executed exactly
once, with arguments equal to the JSON parse of the concatenation of all
its fragments in arrival order.  (For OpenAI, the chunk that opens a tool
call carries id and name with an empty `arguments` payload — the handler
initializes that call's argument buffer to `""` without reading the opening
chunk's `arguments` field.) -/
theorem c3_streaming_reconstruction :
    (∀ (loads : String → Option Json) (evts : List StreamEvent),
      (∀ e ∈ evts, e ≠ .content_block_stop) →
        (claude_stream_events loads evts stream_init).executed = []) ∧
    (∀ (loads : String → Option Json) (pre mid rest : List StreamEvent) id name v,
      (∀ e ∈ pre, mid_event e = true) →
      (∀ e ∈ mid, mid_event e = true) →
      loads (concatChunks (input_fragments mid)) = some v →
        (claude_stream_events loads
          (pre ++ [.content_block_start_tool id name] ++ mid ++
            [.content_block_stop] ++ rest) stream_init).executed = [(name, v)]) ∧
    (∀ (loads : String → Option Json) (evts : List OpenAIChunkEvent),
      (∀ e ∈ evts, ∀ r, e ≠ .finish r) →
        (openai_stream_events loads evts openai_stream_init).executed = []) ∧
    (∀ (loads : String → Option Json) idx id name a0 (mid rest : List OpenAIChunkEvent) v,
      (a0 = none ∨ a0 = some "") →
      (∀ e ∈ mid, openai_mid_event idx e = true) →
      loads (concatChunks (openai_arg_fragments idx
        (.tool_call_delta idx id true (some name) a0 :: mid))) = some v →
        (openai_stream_events loads
          (.tool_call_delta idx id true (some name) a0 :: (mid ++ [.finish "tool_calls"] ++ rest))
          openai_stream_init).executed = [(name, v)]) := by
  refine ⟨?_, ?_, ?_, ?_⟩
  · intro loads evts hns
    exact claude_stream_no_stop loads evts hns stream_init
  · intro loads pre mid rest id name v hpre hmid hv
    have hassoc : pre ++ [StreamEvent.content_block_start_tool id name] ++ mid ++
        [StreamEvent.content_block_stop] ++ rest =
        pre ++ (StreamEvent.content_block_start_tool id name ::
          (mid ++ (StreamEvent.content_block_stop :: rest))) := by
      simp
    rw [hassoc, stream_init]
    rw [claude_stream_pre loads pre hpre]
    simp only [claude_stream_events]
    rw [claude_stream_mid loads mid hmid]
    simp only [claude_stream_events, List.nil_append, Option.isSome]
    rw [hv]
  · intro loads evts hnf
    exact openai_stream_no_finish loads evts hnf openai_stream_init
  · intro loads idx id name a0 mid rest v ha0 hmid hv
    have hempty : ∀ s : String, "" ++ s = s := fun s => rfl
    have hv' : loads (concatChunks (openai_arg_fragments idx mid)) = some v := by
      rcases ha0 with h0 | h0 <;> subst h0 <;>
        simpa [openai_arg_fragments, concatChunks, hempty] using hv
    simp only [openai_stream_events, openai_stream_init, updateBuffers]
    rw [List.append_assoc]
    rw [openai_stream_mid loads idx mid hmid]
    simp [openai_stream_events, execBuffers, hv']

/-- C3 witness: the spec's scenario — argument fragments of a JSON object
arriving in two pieces followed by the end signal — reconstructed and
executed exactly once by both handlers. -/
theorem c3_streaming_reconstruction_witness :
    (claude_stream_events
      (fun s => if s = "\x7b\"a\": 1\x7d" then some (.obj [("a", .num 1)]) else none)
      [.content_block_start_tool "call_1" "get",
       .input_json_delta "\x7b\"a\": ", .input_json_delta "1\x7d",
       .content_block_stop] stream_init).executed = [("get", .obj [("a", .num 1)])] ∧
    (claude_stream_events
      (fun s => if s = "\x7b\"a\": 1\x7d" then some (.obj [("a", .num 1)]) else none)
      [.content_block_start_tool "call_1" "get",
       .input_json_delta "\x7b\"a\": ", .input_json_delta "1\x7d"]
      stream_init).executed = [] ∧
    (openai_stream_events
      (fun s => if s = "\x7b\"a\": 1\x7d" then some (.obj [("a", .num 1)]) else none)
      [.tool_call_delta 0 (some "call_1") true (some "get") (some ""),
       .tool_call_delta 0 none true none (some "\x7b\"a\": "),
       .tool_call_delta 0 none true none (some "1\x7d"),
       .finish "tool_calls"] openai_stream_init).executed =
      [("get", .obj [("a", .num 1)])] := by
  refine ⟨?_, ?_, ?_⟩
  · exact c3_streaming_reconstruction.2.1
      (fun s => if s = "\x7b\"a\": 1\x7d" then some (.obj [("a", .num 1)]) else none)
      [] [.input_json_delta "\x7b\"a\": ", .input_json_delta "1\x7d"] [] "call_1" "get"
      (.obj [("a", .num 1)]) (by simp) (by simp [mid_event]) rfl
  · exact c3_streaming_reconstruction.1
      (fun s => if s = "\x7b\"a\": 1\x7d" then some (.obj [("a", .num 1)]) else none)
      [.content_block_start_tool "call_1" "get",
       .input_json_delta "\x7b\"a\": ", .input_json_delta "1\x7d"] (by decide)
  · exact c3_streaming_reconstruction.2.2.2
      (fun s => if s = "\x7b\"a\": 1\x7d" then some (.obj [("a", .num 1)]) else none)
      0 (some "call_1") "get" (some "")
      [.tool_call_delta 0 none true none (some "\x7b\"a\": "),
       .tool_call_delta 0 none true none (some "1\x7d")] []
      (.obj [("a", .num 1)]) (Or.inr rfl) (by simp [openai_mid_event]) rfl

/-! ### C6/C7 support: characterizing `format_schema`. -/

/-- The `items` update step of `format_schema`, as a standalone function. -/
def items_step (fs : List (String × Json)) : List (String × Json) :=
  match fs.lookup "items" with
  | some it => if it.truthy then setField fs "items" (format_schema it) else fs
  | none => fs

/-- The `properties` update step of `format_schema` (truthiness checked on
the original dict `fs`, the update applied to the current dict `fs1`). -/
def props_step (fs fs1 : List (String × Json)) : List (String × Json) :=
  match fs.lookup "properties" with
  | some (.obj pfs) =>
      if (Json.obj pfs).truthy then
        setField fs1 "properties" (.obj (format_schema_fields pfs))
      else fs1
  | some _ => fs1
  | none => fs1

theorem format_schema_obj (fs : List (String × Json)) :
    format_schema (.obj fs) = .obj (strip_unsupported (props_step fs (items_step fs))) := by
  simp only [format_schema]
  unfold props_step items_step
  split <;> (try simp only [*]) <;> (try rfl)
  all_goals (split <;> (try simp only [*]) <;> (try rfl))
  all_goals (split <;> (try simp only [*]) <;> (try rfl))
  all_goals rfl

theorem format_schema_fields_eq (l : List (String × Json)) :
    format_schema_fields l = l.map (fun kv => (kv.1, format_schema kv.2)) := by
  induction l with
  | nil => simp [format_schema_fields]
  | cons hd tl ih =>
      cases hd with
      | mk k v => simp [format_schema_fields, ih]

theorem items_step_lookup_ne (fs : List (String × Json)) {k : String} (h : k ≠ "items") :
    (items_step fs).lookup k = fs.lookup k := by
  unfold items_step
  cases hit : fs.lookup "items" with
  | none => rfl
  | some it =>
      dsimp only
      by_cases ht : it.truthy
      · rw [if_pos ht]
        exact lookup_setField_ne fs _ h
      · rw [if_neg (by simpa using ht)]

theorem props_step_lookup_ne (fs fs1 : List (String × Json)) {k : String}
    (h : k ≠ "properties") : (props_step fs fs1).lookup k = fs1.lookup k := by
  unfold props_step
  cases hpr : fs.lookup "properties" with
  | none => rfl
  | some pv =>
      cases pv <;> try rfl
      rename_i pfs
      dsimp only
      by_cases ht : (Json.obj pfs).truthy
      · rw [if_pos ht]
        exact lookup_setField_ne fs1 _ h
      · rw [if_neg (by simpa using ht)]

theorem pop_step_self (fs : List (String × Json)) (k : String) :
    isNotNone ((if isNotNone (fs.lookup k) then eraseField fs k else fs).lookup k) = false := by
  split
  · rw [lookup_eraseField_self]
    rfl
  · rename_i h
    simpa using h

theorem pop_step_ne (fs : List (String × Json)) {k k' : String} (h : k ≠ k') :
    (if isNotNone (fs.lookup k') then eraseField fs k' else fs).lookup k = fs.lookup k := by
  split
  · exact lookup_eraseField_ne fs h
  · rfl

theorem strip_unsupported_lookup_ne (fs : List (String × Json)) {k : String}
    (h1 : k ≠ "additionalProperties") (h2 : k ≠ "$schema") (h3 : k ≠ "default") :
    (strip_unsupported fs).lookup k = fs.lookup k := by
  unfold strip_unsupported
  dsimp only
  rw [pop_step_ne _ h3, pop_step_ne _ h2, pop_step_ne _ h1]

/-- After the pops, none of the three unsupported keys has a non-null
value. -/
theorem strip_unsupported_bad (fs : List (String × Json)) :
    isNotNone ((strip_unsupported fs).lookup "additionalProperties") = false ∧
    isNotNone ((strip_unsupported fs).lookup "$schema") = false ∧
    isNotNone ((strip_unsupported fs).lookup "default") = false := by
  unfold strip_unsupported
  dsimp only
  refine ⟨?_, ?_, ?_⟩
  · rw [pop_step_ne _ (by decide), pop_step_ne _ (by decide)]
    exact pop_step_self fs _
  · rw [pop_step_ne _ (by decide)]
    exact pop_step_self _ _
  · exact pop_step_self _ _

/-! ### C6: the stripping guarantee, and its `default: null` limit. -/

mutual

/-- Spec-side predicate for C6: at this node, and at every node reachable
through the `items` value or a `properties` entry, none of the keys
`additionalProperties`, `$schema`, `default` is present with a non-null
value. -/
def gemini_clean (s : Json) : Bool :=
  match s with
  | .obj fs =>
      !(isNotNone (fs.lookup "additionalProperties")) &&
      !(isNotNone (fs.lookup "$schema")) &&
      !(isNotNone (fs.lookup "default")) &&
      (match h1 : fs.lookup "items" with
       | some it => gemini_clean it
       | none => true) &&
      (match h2 : fs.lookup "properties" with
       | some (.obj pfs) => gemini_clean_fields pfs
       | some _ => true
       | none => true)
  | _ => true
termination_by sizeOf s
decreasing_by
  · have := sizeOf_lookup_lt h1
    simp at this ⊢
    omega
  · have := sizeOf_lookup_lt h2
    simp at this ⊢
    omega

def gemini_clean_fields (l : List (String × Json)) : Bool :=
  match l with
  | [] => true
  | (_, v) :: rest => gemini_clean v && gemini_clean_fields rest
termination_by sizeOf l
decreasing_by
  all_goals (simp; try omega)

end

/-- The `items` conjunct of `gemini_clean`, on the looked-up value. -/
def clean_items_opt (o : Option Json) : Bool :=
  match o with
  | some it => gemini_clean it
  | none => true

/-- The `properties` conjunct of `gemini_clean`, on the looked-up value. -/
def clean_props_opt (o : Option Json) : Bool :=
  match o with
  | some (.obj pfs) => gemini_clean_fields pfs
  | some _ => true
  | none => true

theorem gemini_clean_obj (fs : List (String × Json)) :
    gemini_clean (.obj fs) =
      (!(isNotNone (fs.lookup "additionalProperties")) &&
       !(isNotNone (fs.lookup "$schema")) &&
       !(isNotNone (fs.lookup "default")) &&
       clean_items_opt (fs.lookup "items") &&
       clean_props_opt (fs.lookup "properties")) := by
  simp only [gemini_clean]
  unfold clean_items_opt clean_props_opt
  split <;> (try simp only [*]) <;> (try rfl)
  all_goals (split <;> (try simp only [*]) <;> (try rfl))
  all_goals (split <;> (try simp only [*]) <;> (try rfl))
  all_goals rfl

/-- Helper: a falsy value is clean (it is a non-dict or the empty dict). -/
theorem gemini_clean_of_falsy (s : Json) (h : s.truthy = false) : gemini_clean s = true := by
  cases s with
  | obj fs =>
      have : fs = [] := by simpa [Json.truthy, List.isEmpty_iff] using h
      subst this
      rw [gemini_clean_obj]
      simp [List.lookup, isNotNone, clean_items_opt, clean_props_opt]
  | null => simp [gemini_clean]
  | bool b => simp [gemini_clean]
  | num n => simp [gemini_clean]
  | str s => simp [gemini_clean]
  | arr l => simp [gemini_clean]

mutual

/-- C6 core: `format_schema` leaves no non-null unsupported key at any
nesting depth reachable through `items`/`properties`. -/
theorem gemini_clean_format_schema (s : Json) : gemini_clean (format_schema s) = true := by
  match s with
  | .null => simp [format_schema, gemini_clean]
  | .bool b => simp [format_schema, gemini_clean]
  | .num n => simp [format_schema, gemini_clean]
  | .str t => simp [format_schema, gemini_clean]
  | .arr l => simp [format_schema, gemini_clean]
  | .obj fs =>
      rw [format_schema_obj, gemini_clean_obj]
      obtain ⟨hb1, hb2, hb3⟩ := strip_unsupported_bad (props_step fs (items_step fs))
      rw [hb1, hb2, hb3]
      have hitems : (strip_unsupported (props_step fs (items_step fs))).lookup "items" =
          (items_step fs).lookup "items" := by
        rw [strip_unsupported_lookup_ne _ (by decide) (by decide) (by decide)]
        exact props_step_lookup_ne _ _ (by decide)
      have hprops : (strip_unsupported (props_step fs (items_step fs))).lookup "properties" =
          (props_step fs (items_step fs)).lookup "properties" :=
        strip_unsupported_lookup_ne _ (by decide) (by decide) (by decide)
      rw [hitems, hprops]
      have hclean_items : clean_items_opt ((items_step fs).lookup "items") = true := by
        unfold items_step
        cases hit : fs.lookup "items" with
        | none => simp [hit, clean_items_opt]
        | some it =>
            dsimp only
            by_cases ht : it.truthy
            · rw [if_pos ht, lookup_setField_self]
              unfold clean_items_opt
              exact gemini_clean_format_schema it
            · rw [if_neg (by simpa using ht), hit]
              unfold clean_items_opt
              exact gemini_clean_of_falsy it (by simpa using ht)
      have hclean_props :
          clean_props_opt ((props_step fs (items_step fs)).lookup "properties") = true := by
        unfold props_step
        cases hpr : fs.lookup "properties" with
        | none =>
            rw [items_step_lookup_ne fs (by decide), hpr]
            rfl
        | some pv =>
            cases pv with
            | obj pfs =>
                dsimp only
                by_cases ht : (Json.obj pfs).truthy
                · rw [if_pos ht, lookup_setField_self]
                  unfold clean_props_opt
                  exact gemini_clean_fields_format_schema pfs
                · rw [if_neg (by simpa using ht), items_step_lookup_ne fs (by decide), hpr]
                  have hnil : pfs = [] := by simpa [Json.truthy, List.isEmpty_iff] using ht
                  subst hnil
                  simp [clean_props_opt, gemini_clean_fields]
            | null =>
                rw [items_step_lookup_ne fs (by decide), hpr]
                rfl
            | bool b =>
                rw [items_step_lookup_ne fs (by decide), hpr]
                rfl
            | num n =>
                rw [items_step_lookup_ne fs (by decide), hpr]
                rfl
            | str t =>
                rw [items_step_lookup_ne fs (by decide), hpr]
                rfl
            | arr l =>
                rw [items_step_lookup_ne fs (by decide), hpr]
                rfl
      rw [hclean_items, hclean_props]
      rfl
termination_by sizeOf s
decreasing_by
  · have := sizeOf_lookup_lt hit
    simp at this ⊢
    omega
  · have := sizeOf_lookup_lt hpr
    simp at this ⊢
    omega

theorem gemini_clean_fields_format_schema (l : List (String × Json)) :
    gemini_clean_fields (format_schema_fields l) = true := by
  match l with
  | [] => simp [format_schema_fields, gemini_clean_fields]
  | (k, v) :: rest =>
      simp only [format_schema_fields, gemini_clean_fields]
      rw [gemini_clean_format_schema v, gemini_clean_fields_format_schema rest]
      rfl
termination_by sizeOf l
decreasing_by
  all_goals (simp; try omega)

end

/-! ### C7 support: a second `format_schema` pass is a no-op. -/

theorem items_step_eq_of_truthy (fs : List (String × Json)) (it : Json)
    (h : fs.lookup "items" = some it) (ht : it.truthy = true) :
    items_step fs = setField fs "items" (format_schema it) := by
  unfold items_step
  rw [h]
  dsimp only
  rw [if_pos ht]

theorem items_step_eq_id (fs : List (String × Json))
    (h : ∀ it, fs.lookup "items" = some it → it.truthy = false) : items_step fs = fs := by
  unfold items_step
  cases hl : fs.lookup "items" with
  | none => rfl
  | some it =>
      dsimp only
      rw [if_neg (by simp [h it hl])]

theorem props_step_eq_of_truthy (fs fs1 : List (String × Json)) (pfs : List (String × Json))
    (h : fs.lookup "properties" = some (.obj pfs)) (ht : (Json.obj pfs).truthy = true) :
    props_step fs fs1 = setField fs1 "properties" (.obj (format_schema_fields pfs)) := by
  unfold props_step
  rw [h]
  dsimp only
  rw [if_pos ht]

theorem props_step_eq_id (fs fs1 : List (String × Json))
    (h : ∀ pfs, fs.lookup "properties" = some (.obj pfs) → (Json.obj pfs).truthy = false) :
    props_step fs fs1 = fs1 := by
  unfold props_step
  cases hl : fs.lookup "properties" with
  | none => rfl
  | some pv =>
      cases pv with
      | obj pfs =>
          dsimp only
          rw [if_neg (by simp [h pfs hl])]
      | null => rfl
      | bool b => rfl
      | num n => rfl
      | str t => rfl
      | arr l => rfl

theorem strip_unsupported_of_clean (l : List (String × Json))
    (h1 : isNotNone (l.lookup "additionalProperties") = false)
    (h2 : isNotNone (l.lookup "$schema") = false)
    (h3 : isNotNone (l.lookup "default") = false) : strip_unsupported l = l := by
  unfold strip_unsupported
  simp [h1, h2, h3]

theorem strip_unsupported_idem (l : List (String × Json)) :
    strip_unsupported (strip_unsupported l) = strip_unsupported l := by
  obtain ⟨b1, b2, b3⟩ := strip_unsupported_bad l
  exact strip_unsupported_of_clean _ b1 b2 b3

theorem format_schema_fields_truthy (pfs : List (String × Json)) :
    (Json.obj (format_schema_fields pfs)).truthy = (Json.obj pfs).truthy := by
  rw [format_schema_fields_eq]
  cases pfs <;> simp [Json.truthy]

mutual

/-- C7 core: a second `format_schema` pass over an already formatted schema
changes nothing. -/
theorem format_schema_idem (s : Json) : format_schema (format_schema s) = format_schema s := by
  match s with
  | .null => simp [format_schema]
  | .bool b => simp [format_schema]
  | .num n => simp [format_schema]
  | .str t => simp [format_schema]
  | .arr l => simp [format_schema]
  | .obj fs =>
      rw [format_schema_obj fs]
      rw [format_schema_obj (strip_unsupported (props_step fs (items_step fs)))]
      have hGitems :
          (strip_unsupported (props_step fs (items_step fs))).lookup "items" =
            (items_step fs).lookup "items" := by
        rw [strip_unsupported_lookup_ne _ (by decide) (by decide) (by decide)]
        exact props_step_lookup_ne _ _ (by decide)
      have hGprops :
          (strip_unsupported (props_step fs (items_step fs))).lookup "properties" =
            (props_step fs (items_step fs)).lookup "properties" :=
        strip_unsupported_lookup_ne _ (by decide) (by decide) (by decide)
      have hstep1 : items_step (strip_unsupported (props_step fs (items_step fs))) =
          strip_unsupported (props_step fs (items_step fs)) := by
        rcases hit : fs.lookup "items" with _ | it
        · apply items_step_eq_id
          intro it' hit'
          rw [hGitems, items_step_eq_id fs (by intro it' h'; rw [hit] at h'; cases h'), hit]
            at hit'
          cases hit'
        · by_cases ht : it.truthy
          · have hGit : (strip_unsupported (props_step fs (items_step fs))).lookup "items" =
                some (format_schema it) := by
              rw [hGitems, items_step_eq_of_truthy fs it hit ht]
              exact lookup_setField_self fs "items" (format_schema it)
            by_cases ht2 : (format_schema it).truthy
            · rw [items_step_eq_of_truthy _ _ hGit ht2, format_schema_idem it]
              exact setField_of_lookup_eq _ "items" (format_schema it) hGit
            · apply items_step_eq_id
              intro it' hit'
              rw [hGit] at hit'
              cases hit'
              simpa using ht2
          · have hGit : (strip_unsupported (props_step fs (items_step fs))).lookup "items" =
                some it := by
              rw [hGitems, items_step_eq_id fs ?hfalsy, hit]
              case hfalsy =>
                intro it' h'
                rw [hit] at h'
                cases h'
                simpa using ht
            apply items_step_eq_id
            intro it' hit'
            rw [hGit] at hit'
            cases hit'
            simpa using ht
      rw [hstep1]
      obtain ⟨b1, b2, b3⟩ := strip_unsupported_bad (props_step fs (items_step fs))
      rcases hpr : fs.lookup "properties" with _ | pv
      · have hno : ∀ q, (strip_unsupported (props_step fs (items_step fs))).lookup
            "properties" = some (.obj q) → (Json.obj q).truthy = false := by
          intro q hq
          rw [hGprops, props_step_eq_id fs _ (by intro q' hq'; rw [hpr] at hq'; simp at hq'),
            items_step_lookup_ne fs (by decide), hpr] at hq
          simp at hq
        rw [props_step_eq_id _ _ hno, strip_unsupported_of_clean _ b1 b2 b3]
      · cases pv with
        | obj pfs =>
            by_cases ht : (Json.obj pfs).truthy
            · have hGp : (strip_unsupported (props_step fs (items_step fs))).lookup
                  "properties" = some (.obj (format_schema_fields pfs)) := by
                rw [hGprops, props_step_eq_of_truthy fs _ pfs hpr ht]
                exact lookup_setField_self _ "properties" _
              have ht2 : (Json.obj (format_schema_fields pfs)).truthy = true := by
                rw [format_schema_fields_truthy]
                exact ht
              rw [props_step_eq_of_truthy _ _ _ hGp ht2, format_schema_fields_idem pfs,
                setField_of_lookup_eq _ "properties" _ hGp,
                strip_unsupported_of_clean _ b1 b2 b3]
            · have hno : ∀ q, (strip_unsupported (props_step fs (items_step fs))).lookup
                  "properties" = some (.obj q) → (Json.obj q).truthy = false := by
                intro q hq
                rw [hGprops,
                  props_step_eq_id fs _ (by
                    intro q' hq'
                    rw [hpr] at hq'
                    have hqq : pfs = q' := by simpa using hq'
                    subst hqq
                    simpa using ht),
                  items_step_lookup_ne fs (by decide), hpr] at hq
                have hqq : pfs = q := by simpa using hq
                subst hqq
                simpa using ht
              rw [props_step_eq_id _ _ hno, strip_unsupported_of_clean _ b1 b2 b3]
        | null =>
            have hno : ∀ q, (strip_unsupported (props_step fs (items_step fs))).lookup
                "properties" = some (.obj q) → (Json.obj q).truthy = false := by
              intro q hq
              rw [hGprops, props_step_eq_id fs _ (by intro q' hq'; rw [hpr] at hq'; simp at hq'),
                items_step_lookup_ne fs (by decide), hpr] at hq
              simp at hq
            rw [props_step_eq_id _ _ hno, strip_unsupported_of_clean _ b1 b2 b3]
        | bool b =>
            have hno : ∀ q, (strip_unsupported (props_step fs (items_step fs))).lookup
                "properties" = some (.obj q) → (Json.obj q).truthy = false := by
              intro q hq
              rw [hGprops, props_step_eq_id fs _ (by intro q' hq'; rw [hpr] at hq'; simp at hq'),
                items_step_lookup_ne fs (by decide), hpr] at hq
              simp at hq
            rw [props_step_eq_id _ _ hno, strip_unsupported_of_clean _ b1 b2 b3]
        | num n =>
            have hno : ∀ q, (strip_unsupported (props_step fs (items_step fs))).lookup
                "properties" = some (.obj q) → (Json.obj q).truthy = false := by
              intro q hq
              rw [hGprops, props_step_eq_id fs _ (by intro q' hq'; rw [hpr] at hq'; simp at hq'),
                items_step_lookup_ne fs (by decide), hpr] at hq
              simp at hq
            rw [props_step_eq_id _ _ hno, strip_unsupported_of_clean _ b1 b2 b3]
        | str t =>
            have hno : ∀ q, (strip_unsupported (props_step fs (items_step fs))).lookup
                "properties" = some (.obj q) → (Json.obj q).truthy = false := by
              intro q hq
              rw [hGprops, props_step_eq_id fs _ (by intro q' hq'; rw [hpr] at hq'; simp at hq'),
                items_step_lookup_ne fs (by decide), hpr] at hq
              simp at hq
            rw [props_step_eq_id _ _ hno, strip_unsupported_of_clean _ b1 b2 b3]
        | arr l =>
            have hno : ∀ q, (strip_unsupported (props_step fs (items_step fs))).lookup
                "properties" = some (.obj q) → (Json.obj q).truthy = false := by
              intro q hq
              rw [hGprops, props_step_eq_id fs _ (by intro q' hq'; rw [hpr] at hq'; simp at hq'),
                items_step_lookup_ne fs (by decide), hpr] at hq
              simp at hq
            rw [props_step_eq_id _ _ hno, strip_unsupported_of_clean _ b1 b2 b3]
termination_by sizeOf s
decreasing_by
  · have := sizeOf_lookup_lt hit
    simp at this ⊢
    omega
  · have := sizeOf_lookup_lt hpr
    simp at this ⊢
    omega

theorem format_schema_fields_idem (l : List (String × Json)) :
    format_schema_fields (format_schema_fields l) = format_schema_fields l := by
  match l with
  | [] => simp [format_schema_fields]
  | (k, v) :: rest =>
      simp only [format_schema_fields]
      rw [format_schema_idem v, format_schema_fields_idem rest]
termination_by sizeOf l
decreasing_by
  all_goals (simp; try omega)

end

/-! ### C7 support: second runs of the adapters over the mutated
descriptors. -/

theorem lookup_append_none {l1 : List (String × Json)} (l2 : List (String × Json))
    {k : String} (h : l1.lookup k = none) : (l1 ++ l2).lookup k = l2.lookup k := by
  induction l1 with
  | nil => rfl
  | cons hd tl ih =>
      cases hd with
      | mk a b =>
          cases hbeq : (k == a)
          · simp only [List.cons_append, List.lookup, hbeq] at h ⊢
            exact ih h
          · simp only [List.lookup, hbeq] at h
            cases h

theorem openai_fix_schema_cond (fs : List (String × Json))
    (ht : (Json.obj fs).truthy = true)
    (hc : (typeIsObject (fs.lookup "type") && (fs.lookup "properties").isNone) = true) :
    openai_fix_schema (.obj fs) = .obj (fs ++ [("properties", .obj [])]) := by
  unfold openai_fix_schema
  rw [if_pos ht]
  dsimp only
  rw [if_pos hc]

theorem openai_fix_schema_keep (fs : List (String × Json))
    (ht : (Json.obj fs).truthy = true)
    (hc : (typeIsObject (fs.lookup "type") && (fs.lookup "properties").isNone) = false) :
    openai_fix_schema (.obj fs) = .obj fs := by
  unfold openai_fix_schema
  rw [if_pos ht]
  dsimp only
  rw [if_neg (by simp [hc])]

theorem openai_fix_schema_bool (b : Bool) (ht : (Json.bool b).truthy = true) :
    openai_fix_schema (.bool b) = .bool b := by
  unfold openai_fix_schema
  rw [if_pos ht]

theorem openai_fix_schema_num (n : Int) (ht : (Json.num n).truthy = true) :
    openai_fix_schema (.num n) = .num n := by
  unfold openai_fix_schema
  rw [if_pos ht]

theorem openai_fix_schema_str (t : String) (ht : (Json.str t).truthy = true) :
    openai_fix_schema (.str t) = .str t := by
  unfold openai_fix_schema
  rw [if_pos ht]

theorem openai_fix_schema_arr (l : List Json) (ht : (Json.arr l).truthy = true) :
    openai_fix_schema (.arr l) = .arr l := by
  unfold openai_fix_schema
  rw [if_pos ht]

/-- Re-running the OpenAI/Claude schema fix-up on the mutated schema gives
the same parameters as the first run. -/
theorem openai_fix_schema_after (s : Json) :
    openai_fix_schema (openai_inputSchema_after s) = openai_fix_schema s := by
  unfold openai_inputSchema_after
  by_cases ht : s.truthy = true
  · rw [if_pos ht]
    cases s with
    | null => simp [Json.truthy] at ht
    | bool b => rw [openai_fix_schema_bool b ht, openai_fix_schema_bool b ht]
    | num n => rw [openai_fix_schema_num n ht, openai_fix_schema_num n ht]
    | str t => rw [openai_fix_schema_str t ht, openai_fix_schema_str t ht]
    | arr l => rw [openai_fix_schema_arr l ht, openai_fix_schema_arr l ht]
    | obj fs =>
        by_cases hc : (typeIsObject (fs.lookup "type") && (fs.lookup "properties").isNone) = true
        · rw [openai_fix_schema_cond fs ht hc]
          have hnone : fs.lookup "properties" = none := by
            cases hl : fs.lookup "properties" with
            | none => rfl
            | some v => rw [hl] at hc; simp at hc
          have ht2 : (Json.obj (fs ++ [("properties", Json.obj [])])).truthy = true := by
            simp [Json.truthy]
          have hc2 : (typeIsObject ((fs ++ [("properties", Json.obj [])]).lookup "type") &&
              (((fs ++ [("properties", Json.obj [])]).lookup "properties").isNone)) = false := by
            rw [lookup_append_none _ hnone]
            simp [List.lookup]
          exact openai_fix_schema_keep _ ht2 hc2
        · have hcf : (typeIsObject (fs.lookup "type") &&
              (fs.lookup "properties").isNone) = false := by
            simpa using hc
          rw [openai_fix_schema_keep fs ht hcf, openai_fix_schema_keep fs ht hcf]
  · rw [if_neg ht]

/-- Second run of the OpenAI formatter over the descriptors it mutated. -/
theorem openai_format_idem (ts : List MTool) :
    openai_format (openai_tools_after ts) = openai_format ts := by
  induction ts with
  | nil => rfl
  | cons t rest ih =>
      simp only [openai_format, openai_tools_after, List.map_cons] at ih ⊢
      rw [openai_fix_schema_after t.inputSchema, ih]

/-- Second run of the Claude formatter over the descriptors it mutated. -/
theorem claude_format_idem (ts : List MTool) :
    claude_format (claude_tools_after ts) = claude_format ts := by
  induction ts with
  | nil => rfl
  | cons t rest ih =>
      simp only [claude_format, claude_tools_after, List.map_cons] at ih ⊢
      rw [openai_fix_schema_after t.inputSchema, ih]

/-- Second run of the Gemini formatter on one mutated descriptor. -/
theorem gemini_format_tool_after (t : MTool) (g : GeminiDecl)
    (h : gemini_format_tool t = some g) :
    gemini_format_tool
      { t with inputSchema := gemini_inputSchema_after t.inputSchema } = some g := by
  cases hs : t.inputSchema with
  | null => unfold gemini_format_tool at h; rw [hs] at h; cases h
  | bool b => unfold gemini_format_tool at h; rw [hs] at h; cases h
  | num n => unfold gemini_format_tool at h; rw [hs] at h; cases h
  | str s2 => unfold gemini_format_tool at h; rw [hs] at h; cases h
  | arr l => unfold gemini_format_tool at h; rw [hs] at h; cases h
  | obj fs =>
      unfold gemini_format_tool at h
      rw [hs] at h
      dsimp only at h
      unfold gemini_format_tool
      dsimp only
      cases hty : fs.lookup "type" with
      | none => rw [hty] at h; cases h
      | some ty =>
          rw [hty] at h
          dsimp only at h
          cases hpr : fs.lookup "properties" with
          | none =>
              rw [hpr] at h
              dsimp only at h
              have hafter : gemini_inputSchema_after (Json.obj fs) = Json.obj fs := by
                unfold gemini_inputSchema_after
                dsimp only
                rw [hty, hpr]
              rw [hafter]
              dsimp only
              rw [hty]
              dsimp only
              rw [hpr]
              dsimp only
              exact h
          | some pv =>
              cases pv with
              | obj pfs =>
                  rw [hpr] at h
                  dsimp only at h
                  have hafter : gemini_inputSchema_after (Json.obj fs) =
                      Json.obj (setField fs "properties"
                        (Json.obj (format_schema_fields pfs))) := by
                    unfold gemini_inputSchema_after
                    dsimp only
                    rw [hty, hpr]
                  rw [hafter]
                  dsimp only
                  rw [lookup_setField_ne fs (Json.obj (format_schema_fields pfs))
                    (show ("type" : String) ≠ "properties" by decide), hty]
                  dsimp only
                  rw [lookup_setField_ne fs (Json.obj (format_schema_fields pfs))
                    (show ("required" : String) ≠ "properties" by decide)]
                  rw [lookup_setField_self fs "properties"
                    (Json.obj (format_schema_fields pfs))]
                  dsimp only
                  rw [format_schema_fields_idem pfs]
                  exact h
              | null => rw [hpr] at h; cases h
              | bool b => rw [hpr] at h; cases h
              | num n => rw [hpr] at h; cases h
              | str s2 => rw [hpr] at h; cases h
              | arr l => rw [hpr] at h; cases h

theorem gemini_format_cons (t : MTool) (rest : List MTool) :
    gemini_format (t :: rest) =
      (gemini_format_tool t).bind
        (fun g => (gemini_format rest).bind (fun gs => some (g :: gs))) := by
  unfold gemini_format
  rw [List.mapM_cons]
  rfl

/-- Second run of the Gemini formatter over the descriptors it mutated:
when the first run succeeded, the second returns the same declarations. -/
theorem gemini_format_after (ts : List MTool) (out : List GeminiDecl)
    (h : gemini_format ts = some out) :
    gemini_format (gemini_tools_after ts) = some out := by
  induction ts generalizing out with
  | nil => exact h
  | cons t rest ih =>
      rw [gemini_format_cons] at h
      rw [show gemini_tools_after (t :: rest) =
          ({ t with inputSchema := gemini_inputSchema_after t.inputSchema } ::
            gemini_tools_after rest) from rfl, gemini_format_cons]
      cases hg : gemini_format_tool t with
      | none => rw [hg] at h; cases h
      | some g =>
          rw [hg] at h
          cases hr : gemini_format rest with
          | none => rw [hr] at h; cases h
          | some outs =>
              rw [hr] at h
              rw [gemini_format_tool_after t g hg, ih outs hr]
              exact h

/-- C6, counterexample.  The pops of `format_schema` fire only when
`s.get(key) is not None`, so a `default` key whose value is JSON `null`
survives: formatting a tool whose schema carries `properties.foo.default =
null` returns parameters that still contain the `default` key at the
nested position `properties.foo`, contradicting the claim that the three
unsupported keys are removed at every nesting depth. -/
theorem c6_counterexample :
    gemini_format_tool ⟨"t", "d",
        Json.obj [("type", Json.str "object"),
          ("properties", Json.obj [("foo", Json.obj [("default", Json.null)])])]⟩ =
      some ⟨"t", "d",
        Json.obj [("type", Json.str "object"), ("required", Json.arr []),
          ("properties", Json.obj [("foo", Json.obj [("default", Json.null)])])]⟩ := by
  have hfoo : format_schema (Json.obj [("default", Json.null)]) =
      Json.obj [("default", Json.null)] := by
    rw [format_schema_obj]
    rfl
  have hff : format_schema_fields [("foo", Json.obj [("default", Json.null)])] =
      [("foo", Json.obj [("default", Json.null)])] := by
    rw [format_schema_fields_eq]
    dsimp only [List.map]
    rw [hfoo]
  have hstep : gemini_format_tool ⟨"t", "d",
      Json.obj [("type", Json.str "object"),
        ("properties", Json.obj [("foo", Json.obj [("default", Json.null)])])]⟩ =
      some ⟨"t", "d",
        Json.obj [("type", Json.str "object"), ("required", Json.arr []),
          ("properties", Json.obj
            (format_schema_fields [("foo", Json.obj [("default", Json.null)])]))]⟩ := rfl
  rw [hstep, hff]

/-- C6.  `GeminiToolFormatter.format` guarantees the amended property: on
every descriptor for which it returns a declaration (rather than raising),
the resulting `parameters` contain no key among `additionalProperties`,
`$schema`, `default` **with a non-null value** at any nesting depth
reachable through `properties`/`items`; a surviving key must carry the
value `null` (the original claim of outright removal fails, see the
counterexample). -/
theorem c6_gemini_strips_nonnull (t : MTool) (g : GeminiDecl)
    (h : gemini_format_tool t = some g) : gemini_clean g.parameters = true := by
  unfold gemini_format_tool at h
  cases hs : t.inputSchema with
  | null => rw [hs] at h; cases h
  | bool b => rw [hs] at h; cases h
  | num n => rw [hs] at h; cases h
  | str s2 => rw [hs] at h; cases h
  | arr l => rw [hs] at h; cases h
  | obj fs =>
      rw [hs] at h
      dsimp only at h
      cases hty : fs.lookup "type" with
      | none => rw [hty] at h; cases h
      | some ty =>
          rw [hty] at h
          dsimp only at h
          cases hpr : fs.lookup "properties" with
          | none =>
              rw [hpr] at h
              dsimp only at h
              injection h with h2
              subst h2
              rw [gemini_clean_obj]
              simp [List.lookup, isNotNone, clean_items_opt, clean_props_opt,
                gemini_clean_fields]
          | some pv =>
              cases pv with
              | obj pfs =>
                  rw [hpr] at h
                  dsimp only at h
                  injection h with h2
                  subst h2
                  rw [gemini_clean_obj]
                  simp [List.lookup, isNotNone, clean_items_opt, clean_props_opt,
                    gemini_clean_fields_format_schema pfs]
              | null => rw [hpr] at h; cases h
              | bool b => rw [hpr] at h; cases h
              | num n => rw [hpr] at h; cases h
              | str s2 => rw [hpr] at h; cases h
              | arr l => rw [hpr] at h; cases h

/-- Witness for C6: a concrete object-typed tool without `properties` is
formatted successfully and its parameters satisfy the cleanliness
predicate. -/
theorem c6_gemini_strips_nonnull_witness :
    gemini_format_tool ⟨"w", "d", Json.obj [("type", Json.str "object")]⟩ =
        some ⟨"w", "d", Json.obj [("type", Json.str "object"), ("required", Json.arr []),
          ("properties", Json.obj [])]⟩ ∧
    gemini_clean (Json.obj [("type", Json.str "object"), ("required", Json.arr []),
      ("properties", Json.obj [])]) = true :=
  ⟨rfl, c6_gemini_strips_nonnull ⟨"w", "d", Json.obj [("type", Json.str "object")]⟩
    ⟨"w", "d", Json.obj [("type", Json.str "object"), ("required", Json.arr []),
      ("properties", Json.obj [])]⟩ rfl⟩

/-- C7, counterexample.  `OpenAIToolFormatter.format` is not pure: on a
truthy schema `params` *is* `tool.inputSchema`, and
`params["properties"] = {}` mutates the descriptor in place, so after one
run the descriptor's schema differs from its original value. -/
theorem c7_counterexample :
    openai_inputSchema_after (Json.obj [("type", Json.str "object")]) =
        Json.obj [("type", Json.str "object"), ("properties", Json.obj [])] ∧
    Json.obj ([("type", Json.str "object")] : List (String × Json)) ≠
        Json.obj [("type", Json.str "object"), ("properties", Json.obj [])] := by
  refine ⟨rfl, ?_⟩
  intro h
  simp at h

/-- C7.  The adapters do mutate the descriptors' nested schemas in place
(see the counterexample), but the amended stability property holds: a
second run of each adapter over the descriptor list left behind by the
first run reproduces the first run's output exactly — for OpenAI and
Claude unconditionally, and for Gemini whenever the first run returned
declarations at all. -/
theorem c7_adapters_second_run_stable (ts : List MTool) (out : List GeminiDecl)
    (h : gemini_format ts = some out) :
    openai_format (openai_tools_after ts) = openai_format ts ∧
    claude_format (claude_tools_after ts) = claude_format ts ∧
    gemini_format (gemini_tools_after ts) = some out :=
  ⟨openai_format_idem ts, claude_format_idem ts, gemini_format_after ts out h⟩

/-- Witness for C7: one concrete object-typed descriptor. -/
theorem c7_adapters_second_run_stable_witness :
    gemini_format [(⟨"w", "d", Json.obj [("type", Json.str "object")]⟩ : MTool)] =
        some [⟨"w", "d", Json.obj [("type", Json.str "object"), ("required", Json.arr []),
          ("properties", Json.obj [])]⟩] ∧
    (openai_format (openai_tools_after
          [(⟨"w", "d", Json.obj [("type", Json.str "object")]⟩ : MTool)]) =
        openai_format [(⟨"w", "d", Json.obj [("type", Json.str "object")]⟩ : MTool)] ∧
      claude_format (claude_tools_after
          [(⟨"w", "d", Json.obj [("type", Json.str "object")]⟩ : MTool)]) =
        claude_format [(⟨"w", "d", Json.obj [("type", Json.str "object")]⟩ : MTool)] ∧
      gemini_format (gemini_tools_after
          [(⟨"w", "d", Json.obj [("type", Json.str "object")]⟩ : MTool)]) =
        some [⟨"w", "d", Json.obj [("type", Json.str "object"), ("required", Json.arr []),
          ("properties", Json.obj [])]⟩]) :=
  ⟨rfl, c7_adapters_second_run_stable _ _ rfl⟩
